import Mathlib

/-!
Mandelbrot renderer: escape-time evaluator, viewport zoom and pixel enumeration

A shallow embedding of `src/mandelbrot.cpp`.

* `double` values are elements of a number type `α`.  The code is written over any type
  with the operations it uses (`+`, `-`, `*`, `/`, unary minus, `<`, the conversions
  from `std::size_t` and `int`, integer literals), so that it can be read in two ways:
  over `Double`, the IEEE 754 binary64 arithmetic the program runs with, and over a
  linear ordered field (arithmetic read exactly, evaluated over `ℚ`).  Results about the
  loop structure hold for every interpretation of the arithmetic.
* `std::size_t` counters are `Nat` (all values stay far below `2 ^ 64`), the `int`
  click coordinates are `Int`.
-/

namespace Mandelbrot

/-! ## Settings -/

/-- `constexpr std::size_t maxIterationCount = 100;` -/
def maxIterationCount : Nat := 100

/-- `constexpr std::size_t windowSizeX = 1800;` -/
def windowSizeX : Nat := 1800

/-- `constexpr std::size_t windowSizeY = 1200;` -/
def windowSizeY : Nat := 1200

/-- `constexpr double zoomValue = 2;` -/
def zoomValue (α : Type) [OfNat α 2] : α := 2

/-! ## The arithmetic of `double`

IEEE 754 binary64 with the default rounding (to nearest, ties to even): a finite value is
a sign and a non-negative rational magnitude, every operation computes the exact result
and rounds it.  Results too large become infinite, invalid operations give `nan`. -/

/-- The power `2 ^ e` for an integer exponent. -/
def pow2 (e : Int) : ℚ :=
  if 0 ≤ e then ((2 ^ e.toNat : Nat) : ℚ) else 1 / ((2 ^ (-e).toNat : Nat) : ℚ)

/-- Binary logarithm of a natural number, rounded down, by repeated halving; the first
argument bounds the number of halvings and `log2Floor` passes a bound that is never
reached. -/
def log2Aux : Nat → Nat → Nat
  | 0, _ => 0
  | bound + 1, n => if n < 2 then 0 else log2Aux bound (n / 2) + 1

/-- The integer `k` with `2 ^ k ≤ n < 2 ^ (k + 1)`, for `n > 0`. -/
def log2Floor (n : Nat) : Nat := log2Aux n n

/-- The integer `e` with `2 ^ e ≤ a < 2 ^ (e + 1)`, for a rational `a > 0`. -/
def floorLog2 (a : ℚ) : Int :=
  let e0 : Int := (log2Floor a.num.natAbs : Int) - (log2Floor a.den : Int)
  if a < pow2 e0 then e0 - 1 else e0

/-- The integer nearest to `m ≥ 0`; a tie goes to the even neighbour. -/
def roundHalfEven (m : ℚ) : Int :=
  let f := Rat.floor m
  let d := m - (f : ℚ)
  if d < 1 / 2 then f
  else if 1 / 2 < d then f + 1
  else if f % 2 = 0 then f else f + 1

/-- A C++ `double`: a finite value (sign and magnitude, so that `-0.0` exists), an
infinity, or a NaN. -/
inductive Double where
  | finite (negative : Bool) (magnitude : ℚ)
  | infinite (negative : Bool)
  | nan
  deriving DecidableEq

namespace Double

/-- Rounding of the exact magnitude `a ≥ 0` of a result to 53 significant bits, with
gradual underflow below `2 ^ (-1022)` and overflow to infinity from `2 ^ 1024` on. -/
def roundMagnitude (negative : Bool) (a : ℚ) : Double :=
  if a = 0 then finite negative 0
  else
    let e := max (floorLog2 a) (-1022)
    let ulp := pow2 (e - 52)
    let r := (roundHalfEven (a / ulp) : ℚ) * ulp
    if pow2 1024 ≤ r then infinite negative else finite negative r

/-- The `double` nearest to a rational number. -/
def ofRat (q : ℚ) : Double := roundMagnitude (decide (q < 0)) |q|

/-- The rational value of a finite `double`. -/
def value : Double → Option ℚ
  | finite negative magnitude => some (if negative then -magnitude else magnitude)
  | _ => none

/-- Unary minus. -/
def neg : Double → Double
  | finite s a => finite (!s) a
  | infinite s => infinite (!s)
  | nan => nan

/-- Addition. -/
def add : Double → Double → Double
  | finite s a, finite t b =>
    let q := (if s then -a else a) + (if t then -b else b)
    if q = 0 then finite (s && t) 0 else ofRat q
  | finite _ _, infinite t => infinite t
  | infinite s, finite _ _ => infinite s
  | infinite s, infinite t => if s = t then infinite s else nan
  | _, _ => nan

/-- Multiplication. -/
def mul : Double → Double → Double
  | finite s a, finite t b => roundMagnitude (xor s t) (a * b)
  | finite s a, infinite t => if a = 0 then nan else infinite (xor s t)
  | infinite s, finite t b => if b = 0 then nan else infinite (xor s t)
  | infinite s, infinite t => infinite (xor s t)
  | _, _ => nan

/-- Division. -/
def div : Double → Double → Double
  | finite s a, finite t b =>
    if b = 0 then (if a = 0 then nan else infinite (xor s t))
    else roundMagnitude (xor s t) (a / b)
  | finite s _, infinite t => finite (xor s t) 0
  | infinite s, finite t _ => infinite (xor s t)
  | _, _ => nan

/-- The comparison `<`; it is false as soon as an operand is a NaN. -/
def lt : Double → Double → Bool
  | finite s a, finite t b => decide ((if s then -a else a) < (if t then -b else b))
  | finite _ _, infinite t => !t
  | infinite s, finite _ _ => s
  | infinite s, infinite t => s && !t
  | _, _ => false

instance : Add Double := ⟨add⟩

instance : Sub Double := ⟨fun a b => add a (neg b)⟩

instance : Mul Double := ⟨mul⟩

instance : Div Double := ⟨div⟩

instance : Neg Double := ⟨neg⟩

instance : LT Double := ⟨fun a b => lt a b = true⟩

instance : DecidableRel (fun a b : Double => a < b) := fun a b =>
  inferInstanceAs (Decidable (lt a b = true))

/-- Conversion of a `std::size_t` to `double`. -/
instance : NatCast Double := ⟨fun n => ofRat n⟩

/-- Conversion of an `int` to `double`. -/
instance : IntCast Double := ⟨fun n => ofRat n⟩

/-- Integer literals used where a `double` is expected. -/
instance (n : Nat) : OfNat Double n := ⟨ofRat n⟩

end Double

/-! ## Escape-time evaluator -/

section Evaluator

variable {α : Type} [Add α] [Sub α] [Mul α] [OfNat α 2] [OfNat α 4] [LT α]
  [DecidableRel (fun a b : α => a < b)]

/-- The `for (int i = 0; i < maxIterationCount; ++i)` loop of `mandelbrotCheck`.
The first argument is the number of iterations still allowed
(`maxIterationCount - i`); when it reaches zero the loop condition fails and the
function returns `maxIterationCount`. -/
def mandelbrotLoop (real0 imaginary0 : α) : Nat → Nat → α → α → Nat
  | 0, _, _, _ => maxIterationCount
  | remaining + 1, i, real, imaginary =>
    if real * real + imaginary * imaginary > 4 then i
    else
      let newReal := real * real - imaginary * imaginary + real0
      let newImaginary := 2 * real * imaginary + imaginary0
      mandelbrotLoop real0 imaginary0 remaining (i + 1) newReal newImaginary

/-- `std::size_t mandelbrotCheck(double real, double imaginary)`. -/
def mandelbrotCheck (real imaginary : α) : Nat :=
  mandelbrotLoop real imaginary maxIterationCount 0 real imaginary

/-- The value of the loop variables `(real, imaginary)` at the start of iteration `k`
of `mandelbrotCheck real0 imaginary0`, ignoring the early return. -/
def loopState (real0 imaginary0 : α) : Nat → α × α
  | 0 => (real0, imaginary0)
  | k + 1 =>
    let z := loopState real0 imaginary0 k
    (z.1 * z.1 - z.2 * z.2 + real0, 2 * z.1 * z.2 + imaginary0)

/-- The escape test of line 20 on a pair `(real, imaginary)`. -/
def escaped (z : α × α) : Prop := z.1 * z.1 + z.2 * z.2 > 4

instance (z : α × α) : Decidable (escaped z) := by
  unfold escaped; infer_instance

end Evaluator

/-! ## Viewport: pixel-to-plane mapping and the zoom step of `main` -/

section ViewportModel

variable {α : Type} [Add α] [Sub α] [Mul α] [Div α] [Neg α] [LT α]
  [DecidableRel (fun a b : α => a < b)] [NatCast α] [IntCast α]
  [OfNat α 0] [OfNat α 1] [OfNat α 2]

/-- The `double` variables of `main` that describe the visible part of the plane. -/
structure Viewport (α : Type) where
  xLeftBound : α
  xRightBound : α
  yBottomBound : α
  yTopBound : α
  pixelLengthX : α
  pixelLengthY : α

/-- The state of `main` when the first `draw()` runs (lines 101 to 108). -/
def initialViewport : Viewport α :=
  let xLeftBound : α := -2
  let xRightBound : α := 1
  let yBottomBound : α := -1
  let yTopBound : α := 1
  { xLeftBound := xLeftBound
    xRightBound := xRightBound
    yBottomBound := yBottomBound
    yTopBound := yTopBound
    pixelLengthX := (xRightBound - xLeftBound) / ((windowSizeX - 1 : Nat) : α)
    pixelLengthY := (yTopBound - yBottomBound) / ((windowSizeY - 1 : Nat) : α) }

/-- Line 119 of `draw`: `double x = xLeftBound + pixel.first * pixelLengthX;` -/
def planeX (v : Viewport α) (first : Nat) : α := v.xLeftBound + (first : α) * v.pixelLengthX

/-- Line 120 of `draw`: `double y = yBottomBound + pixel.second * pixelLengthY;` -/
def planeY (v : Viewport α) (second : Nat) : α :=
  v.yBottomBound + (second : α) * v.pixelLengthY

/-- The final value of the local `shiftX` of `shiftBounds` (lines 142, 145, 147). -/
def shiftX (α : Type) [Add α] [Sub α] [Mul α] [Div α] [Neg α] [LT α]
    [DecidableRel (fun a b : α => a < b)] [NatCast α] [IntCast α]
    [OfNat α 0] [OfNat α 1] [OfNat α 2] (clickX : Int) : α :=
  let shiftX : α := (clickX : α) - (windowSizeX : α) / (2 * zoomValue α)
  let shiftX : α := if shiftX < 0 then 0 else shiftX
  if shiftX > (windowSizeX : α) - (windowSizeX : α) / zoomValue α then
    (windowSizeX : α) - (windowSizeX : α) / zoomValue α
  else shiftX

/-- The final value of the local `shiftY` of `shiftBounds` (lines 143, 146, 148). -/
def shiftY (α : Type) [Add α] [Sub α] [Mul α] [Div α] [Neg α] [LT α]
    [DecidableRel (fun a b : α => a < b)] [NatCast α] [IntCast α]
    [OfNat α 0] [OfNat α 1] [OfNat α 2] (clickY : Int) : α :=
  let shiftY : α := (clickY : α) - (windowSizeY : α) / (2 * zoomValue α)
  let shiftY : α := if shiftY < 0 then 0 else shiftY
  if shiftY > (windowSizeY : α) - (windowSizeY : α) / zoomValue α then
    (windowSizeY : α) - (windowSizeY : α) / zoomValue α
  else shiftY

/-- The lambda `shiftBounds` (lines 141 to 152): moves the lower-left corner. -/
def shiftBounds (v : Viewport α) (clickX clickY : Int) : Viewport α :=
  { v with
    xLeftBound := v.xLeftBound + shiftX α clickX * v.pixelLengthX
    yBottomBound := v.yBottomBound + shiftY α clickY * v.pixelLengthY }

/-- The handler of a mouse click (lines 153 to 156): `shiftBounds()` followed by
`pixelLengthX /= zoomValue; pixelLengthY /= zoomValue;`. -/
def zoomStep (v : Viewport α) (clickX clickY : Int) : Viewport α :=
  let w := shiftBounds v clickX clickY
  { w with
    pixelLengthX := w.pixelLengthX / zoomValue α
    pixelLengthY := w.pixelLengthY / zoomValue α }

/-- The state of `main` after the mouse clicks `clicks`, in the order they were
received: every `MouseButtonPressed` event runs the zoom step on the current state. -/
def afterClicks (clicks : List (Int × Int)) : Viewport α :=
  clicks.foldl (fun v click => zoomStep v click.1 click.2) initialViewport

/-- The right bound of the viewport in the corner-plus-scale representation of the
specification: the `xRightBound` for which
`pixelLengthX = (xRightBound - xLeftBound) / (windowSizeX - 1)`, that is the plane
coordinate of the last pixel column. -/
def impliedRightBound (v : Viewport α) : α :=
  v.xLeftBound + ((windowSizeX - 1 : Nat) : α) * v.pixelLengthX

/-- The top bound of the viewport in the corner-plus-scale representation of the
specification: the `yTopBound` for which
`pixelLengthY = (yTopBound - yBottomBound) / (windowSizeY - 1)`, that is the plane
coordinate of the last pixel row. -/
def impliedTopBound (v : Viewport α) : α :=
  v.yBottomBound + ((windowSizeY - 1 : Nat) : α) * v.pixelLengthY

end ViewportModel

section ViewportWindow

variable {α : Type} [LinearOrderedField α]

/-- The visible window of `new`, the plane rectangle spanned by the pixels `(0, 0)` and
`(windowSizeX - 1, windowSizeY - 1)`, does not extend outside the one of `old` on any
of its four sides. -/
def windowWithin (new old : Viewport α) : Prop :=
  planeX old 0 ≤ planeX new 0 ∧
  planeX new (windowSizeX - 1) ≤ planeX old (windowSizeX - 1) ∧
  planeY old 0 ≤ planeY new 0 ∧
  planeY new (windowSizeY - 1) ≤ planeY old (windowSizeY - 1)

instance (new old : Viewport α) : Decidable (windowWithin new old) := by
  unfold windowWithin; infer_instance

end ViewportWindow

/-! ## Pixel enumeration: `WindowIterator` and the range-for loop of `draw` -/

/-- `typedef std::pair<std::size_t, std::size_t> pixel;` -/
abbrev pixel : Type := Nat × Nat

/-- `struct WindowIterator`, whose only field is `pixel state{ 0, 0 }`. -/
structure WindowIterator where
  state : pixel := (0, 0)
  deriving DecidableEq

namespace WindowIterator

/-- `WindowIterator begin()` -/
def begin : WindowIterator := { state := (0, 0) }

/-- `WindowIterator end()` -/
def end_ : WindowIterator := { state := (windowSizeX - 1, windowSizeY - 1) }

/-- `WindowIterator operator++()` -/
def next (it : WindowIterator) : WindowIterator :=
  let first := it.state.1 + 1
  if first ≥ windowSizeX then { state := (0, it.state.2 + 1) }
  else { state := (first, it.state.2) }

/-- `bool operator!=(const WindowIterator& other) const` -/
def ne (it other : WindowIterator) : Bool := it.state != other.state

end WindowIterator

/-- The range-for loop of `draw` (line 118), that is
`for (auto it = begin(); it != end(); ++it) { auto& pixel = *it; ... }`,
returning the pixels on which the body ran (for each of them the body evaluates
`mandelbrotCheck` and calls `img.setPixel`), in order.  The first argument bounds the
number of evaluations of the loop condition; `none` means the bound was reached before
the loop ended. -/
def drawLoop : Nat → WindowIterator → Option (List pixel)
  | 0, _ => none
  | fuel + 1, it =>
    if it.ne WindowIterator.end_ then
      (drawLoop fuel it.next).map (fun rest => it.state :: rest)
    else some []

/-- The pixel with row-major index `k`: column `k % windowSizeX`, row `k / windowSizeX`. -/
def pixelAt (k : Nat) : pixel := (k % windowSizeX, k / windowSizeX)

/-- The pixels evaluated and coloured by one call of `draw`. -/
def drawPixels : Option (List pixel) :=
  drawLoop (windowSizeX * windowSizeY) WindowIterator.begin

/-! ## Colour selection -/

/-- `struct color` with its three `std::uint8_t` channels; also stands for the
`sf::Color(r, g, b)` that `selectColor` returns. -/
structure color where
  r : Nat
  g : Nat
  b : Nat
  deriving DecidableEq

/-- `constexpr color colors[]` (lines 37 to 48). -/
def colors : List color :=
  [ { r := 255, g := 102, b := 102 },
    { r := 255, g := 255, b := 102 },
    { r := 102, g := 255, b := 102 },
    { r := 102, g := 255, b := 255 },
    { r := 102, g := 179, b := 255 },
    { r := 179, g := 102, b := 255 },
    { r := 255, g := 102, b := 217 },
    { r := 255, g := 102, b := 102 },
    { r := 0, g := 0, b := 200 },
    { r := 255, g := 0, b := 0 } ]

/-- `constexpr std::size_t colorCount = std::size(colors);` -/
def colorCount : Nat := colors.length

/-- The conversion of an `int` to `std::size_t` that C++ applies to `iterationCount`
before comparing it with `maxIterationCount` and before `% colorCount`. -/
def toSizeT (i : Int) : Nat := (i % (2 : Int) ^ 64).toNat

/-- The lambda `selectColor` (lines 110 to 115). -/
def selectColor (iterationCount : Int) : color :=
  if toSizeT iterationCount = maxIterationCount then { r := 0, g := 0, b := 0 }
  else colors.get ⟨toSizeT iterationCount % colorCount, Nat.mod_lt _ (by decide)⟩

/-! ### Complex arithmetic on pairs, as the specification words it -/

section SpecOrbit

variable {α : Type} [LinearOrderedField α]

/-- Product of two complex numbers given as (real part, imaginary part). -/
def complexMul (z w : α × α) : α × α :=
  (z.1 * w.1 - z.2 * w.2, z.1 * w.2 + z.2 * w.1)

/-- Sum of two complex numbers given as (real part, imaginary part). -/
def complexAdd (z w : α × α) : α × α := (z.1 + w.1, z.2 + w.2)

/-- Squared magnitude `|z|^2` of a complex number. -/
def magnitudeSq (z : α × α) : α := z.1 ^ 2 + z.2 ^ 2

/-- The orbit of the contract: `z_0 = (real0, imaginary0)` and `z_{k+1} = z_k^2 + z_0`. -/
def specOrbit (z0 : α × α) : Nat → α × α
  | 0 => z0
  | k + 1 => complexAdd (complexMul (specOrbit z0 k) (specOrbit z0 k)) z0

/-- The sequence of the glossary: `z_0 = 0` and `z_{n+1} = z_n^2 + c`. -/
def mandelbrotSequence (c : α × α) : Nat → α × α
  | 0 => (0, 0)
  | n + 1 => complexAdd (complexMul (mandelbrotSequence c n) (mandelbrotSequence c n)) c

/-- Membership in the Mandelbrot set as the glossary defines it: the sequence
`mandelbrotSequence c` remains bounded (stated on squared magnitudes, which are bounded
exactly when the magnitudes are). -/
def InMandelbrotSet (c : α × α) : Prop :=
  ∃ bound : α, ∀ n, magnitudeSq (mandelbrotSequence c n) ≤ bound

end SpecOrbit

/-! ## Theorems: escape-time evaluator -/

section EvaluatorLemmas

variable {α : Type} [Add α] [Sub α] [Mul α] [OfNat α 2] [OfNat α 4] [LT α]
  [DecidableRel (fun a b : α => a < b)]

theorem mandelbrotLoop_succ (real0 imaginary0 : α) (remaining i : Nat) :
    mandelbrotLoop real0 imaginary0 (remaining + 1) i
        (loopState real0 imaginary0 i).1 (loopState real0 imaginary0 i).2 =
      if escaped (loopState real0 imaginary0 i) then i
      else mandelbrotLoop real0 imaginary0 remaining (i + 1)
        (loopState real0 imaginary0 (i + 1)).1 (loopState real0 imaginary0 (i + 1)).2 := by
  simp only [mandelbrotLoop, escaped, loopState]

/-- Running the loop from iteration `i`: if `k` is the first index from `i` on whose
state passes the escape test and the loop still has `k - i + 1` iterations, it returns `k`. -/
theorem mandelbrotLoop_eq_first_escape (real0 imaginary0 : α) :
    ∀ (remaining i k : Nat), i ≤ k → k < i + remaining →
      escaped (loopState real0 imaginary0 k) →
      (∀ j, i ≤ j → j < k → ¬ escaped (loopState real0 imaginary0 j)) →
      mandelbrotLoop real0 imaginary0 remaining i
        (loopState real0 imaginary0 i).1 (loopState real0 imaginary0 i).2 = k
  | 0, i, k, hik, hk, _, _ => by omega
  | remaining + 1, i, k, hik, hk, hesc, hmin => by
    rw [mandelbrotLoop_succ]
    by_cases hi : escaped (loopState real0 imaginary0 i)
    · rw [if_pos hi]
      by_contra hne
      exact hmin i (le_refl i) (by omega) hi
    · rw [if_neg hi]
      have hne : i ≠ k := fun h => hi (h ▸ hesc)
      exact mandelbrotLoop_eq_first_escape real0 imaginary0 remaining (i + 1) k
        (by omega) (by omega) hesc (fun j h1 h2 => hmin j (by omega) h2)

/-- Running the loop from iteration `i`: if no state passes the escape test during the
remaining iterations, the loop runs to its bound and returns `maxIterationCount`. -/
theorem mandelbrotLoop_eq_max (real0 imaginary0 : α) :
    ∀ (remaining i : Nat),
      (∀ j, i ≤ j → j < i + remaining → ¬ escaped (loopState real0 imaginary0 j)) →
      mandelbrotLoop real0 imaginary0 remaining i
        (loopState real0 imaginary0 i).1 (loopState real0 imaginary0 i).2 = maxIterationCount
  | 0, _, _ => rfl
  | remaining + 1, i, h => by
    rw [mandelbrotLoop_succ, if_neg (h i (le_refl i) (by omega))]
    exact mandelbrotLoop_eq_max real0 imaginary0 remaining (i + 1)
      (fun j h1 h2 => h j (by omega) (by omega))

/-- The loop returns either an index it actually ran, or `maxIterationCount`. -/
theorem mandelbrotLoop_range (real0 imaginary0 : α) :
    ∀ (remaining i : Nat) (real imaginary : α),
      (i ≤ mandelbrotLoop real0 imaginary0 remaining i real imaginary ∧
        mandelbrotLoop real0 imaginary0 remaining i real imaginary < i + remaining) ∨
      mandelbrotLoop real0 imaginary0 remaining i real imaginary = maxIterationCount
  | 0, _, _, _ => Or.inr rfl
  | remaining + 1, i, real, imaginary => by
    simp only [mandelbrotLoop]
    split
    · left; omega
    · rcases mandelbrotLoop_range real0 imaginary0 remaining (i + 1)
        (real * real - imaginary * imaginary + real0) (2 * real * imaginary + imaginary0)
        with h | h
      · left; omega
      · right; exact h

/-- Characterisation of the result of `mandelbrotCheck` through the loop states. -/
theorem mandelbrotCheck_eq_iff (real0 imaginary0 : α) :
    (mandelbrotCheck real0 imaginary0 = maxIterationCount ↔
      ∀ k, k < maxIterationCount → ¬ escaped (loopState real0 imaginary0 k)) ∧
    (∀ k, k < maxIterationCount →
      (mandelbrotCheck real0 imaginary0 = k ↔
        (escaped (loopState real0 imaginary0 k) ∧
          ∀ j, j < k → ¬ escaped (loopState real0 imaginary0 j)))) := by
  have hrun : ∀ k, k < maxIterationCount → escaped (loopState real0 imaginary0 k) →
      (∀ j, j < k → ¬ escaped (loopState real0 imaginary0 j)) →
      mandelbrotCheck real0 imaginary0 = k := fun k hk hesc hmin =>
    mandelbrotLoop_eq_first_escape real0 imaginary0 maxIterationCount 0 k (Nat.zero_le k)
      (by omega) hesc (fun j _ h => hmin j h)
  have hnone : (∀ k, k < maxIterationCount → ¬ escaped (loopState real0 imaginary0 k)) →
      mandelbrotCheck real0 imaginary0 = maxIterationCount := fun h =>
    mandelbrotLoop_eq_max real0 imaginary0 maxIterationCount 0
      (fun j _ h2 => h j (by omega))
  by_cases hex : ∃ k, k < maxIterationCount ∧ escaped (loopState real0 imaginary0 k)
  · have hlt := (Nat.find_spec hex).1
    have hesc := (Nat.find_spec hex).2
    have hmin : ∀ j, j < Nat.find hex → ¬ escaped (loopState real0 imaginary0 j) :=
      fun j hj hje => Nat.find_min hex hj ⟨by omega, hje⟩
    have hval := hrun _ hlt hesc hmin
    refine ⟨⟨fun h => ?_, fun h => ?_⟩, fun k hk => ⟨fun h => ?_, fun h => hrun k hk h.1 h.2⟩⟩
    · omega
    · exact absurd hesc (h _ hlt)
    · have : Nat.find hex = k := by omega
      rw [← this]
      exact ⟨hesc, hmin⟩
  · have hno : ∀ k, k < maxIterationCount → ¬ escaped (loopState real0 imaginary0 k) :=
      fun k hk hke => hex ⟨k, hk, hke⟩
    have hval := hnone hno
    refine ⟨⟨fun _ => hno, hnone⟩, fun k hk => ⟨fun h => ?_, fun h => ?_⟩⟩
    · omega
    · exact absurd h.1 (hno k hk)

/-- For every interpretation of the arithmetic, the result is `0` exactly when the
escape test of line 20 succeeds on the input itself. -/
theorem mandelbrotCheck_eq_zero_iff_escaped (real imaginary : α) :
    mandelbrotCheck real imaginary = 0 ↔ escaped (real, imaginary) := by
  have h := (mandelbrotCheck_eq_iff real imaginary).2 0 (by decide)
  rw [h]
  exact ⟨fun h => h.1, fun h => ⟨h, fun j hj => absurd hj (Nat.not_lt_zero j)⟩⟩

/-- For every interpretation of the arithmetic, the result never exceeds the budget. -/
theorem mandelbrotCheck_le_max (real imaginary : α) :
    mandelbrotCheck real imaginary ≤ maxIterationCount := by
  rcases mandelbrotLoop_range real imaginary maxIterationCount 0 real imaginary with h | h
  · exact le_of_lt (by simpa [mandelbrotCheck] using h.2)
  · exact le_of_eq h

end EvaluatorLemmas

section EvaluatorExact

variable {α : Type} [LinearOrderedField α]

theorem escaped_iff_magnitudeSq (z : α × α) : escaped z ↔ magnitudeSq z > 4 := by
  unfold escaped magnitudeSq
  rw [pow_two, pow_two]

/-- In exact arithmetic the loop variables follow the orbit `z_{k+1} = z_k^2 + z_0`. -/
theorem loopState_eq_specOrbit (real0 imaginary0 : α) :
    ∀ k, loopState real0 imaginary0 k = specOrbit (real0, imaginary0) k
  | 0 => rfl
  | k + 1 => by
    simp only [loopState, specOrbit, complexAdd, complexMul,
      ← loopState_eq_specOrbit real0 imaginary0 k]
    refine Prod.ext ?_ ?_
    · rfl
    · show 2 * _ * _ + imaginary0 = _ * _ + _ * _ + imaginary0
      ring

/-- At the origin the loop variables never move, so the loop runs to its bound. -/
theorem mandelbrotLoop_origin :
    ∀ (remaining i : Nat), mandelbrotLoop (0 : α) 0 remaining i 0 0 = maxIterationCount
  | 0, _ => rfl
  | remaining + 1, i => by
    have h := mandelbrotLoop_origin remaining (i + 1)
    simp only [mandelbrotLoop]
    norm_num
    exact h

/-- With the arithmetic read exactly, and the orbit `z_0 = (real0, imaginary0)`,
`z_{k+1} = z_k^2 + z_0`, `mandelbrotCheck` returns `k < maxIterationCount` exactly when
`k` is the least index with `|z_k|^2 > 4`, and returns `maxIterationCount` exactly when
no index below `maxIterationCount` has `|z_k|^2 > 4`. -/
theorem mandelbrotCheck_exact_orbit (real0 imaginary0 : α) :
    (∀ k, k < maxIterationCount →
      (mandelbrotCheck real0 imaginary0 = k ↔
        (magnitudeSq (specOrbit (real0, imaginary0) k) > 4 ∧
          ∀ j, j < k → ¬ magnitudeSq (specOrbit (real0, imaginary0) j) > 4))) ∧
    (mandelbrotCheck real0 imaginary0 = maxIterationCount ↔
      ∀ k, k < maxIterationCount → ¬ magnitudeSq (specOrbit (real0, imaginary0) k) > 4) ∧
    maxIterationCount = 100 := by
  have h := mandelbrotCheck_eq_iff real0 imaginary0
  simp only [escaped_iff_magnitudeSq, loopState_eq_specOrbit] at h
  exact ⟨h.2, h.1, rfl⟩

/-- With the arithmetic read exactly, `mandelbrotCheck` returns `0` if and only if
`real^2 + imaginary^2 > 4`; the test is strict, so a point with
`real^2 + imaginary^2 = 4`, such as `(2, 0)` or `(-2, 0)`, does not return `0`. -/
theorem mandelbrotCheck_eq_zero_iff_exact :
    (∀ real imaginary : α,
      mandelbrotCheck real imaginary = 0 ↔ real ^ 2 + imaginary ^ 2 > 4) ∧
    (∀ real imaginary : α,
      real ^ 2 + imaginary ^ 2 = 4 → mandelbrotCheck real imaginary ≠ 0) ∧
    mandelbrotCheck (2 : α) 0 ≠ 0 ∧ mandelbrotCheck (-2 : α) 0 ≠ 0 := by
  have key : ∀ real imaginary : α,
      mandelbrotCheck real imaginary = 0 ↔ real ^ 2 + imaginary ^ 2 > 4 := by
    intro real imaginary
    rw [mandelbrotCheck_eq_zero_iff_escaped, escaped_iff_magnitudeSq]
    rfl
  have strict : ∀ real imaginary : α,
      real ^ 2 + imaginary ^ 2 = 4 → mandelbrotCheck real imaginary ≠ 0 := by
    intro real imaginary h h0
    have := (key real imaginary).1 h0
    rw [h] at this
    exact lt_irrefl _ this
  exact ⟨key, strict, strict 2 0 (by norm_num), strict (-2) 0 (by norm_num)⟩

/-- Claim C3: `mandelbrotCheck(1, 0)` returns `2`: the loop variables run through
`(1, 0)`, `(2, 0)`, `(5, 0)`; the squared magnitude `4` of `(2, 0)` does not pass the
strict test and the escape is detected at loop index `2`. -/
theorem mandelbrotCheck_one_zero :
    mandelbrotCheck (1 : α) 0 = 2 ∧
    loopState (1 : α) 0 0 = (1, 0) ∧ loopState (1 : α) 0 1 = (2, 0) ∧
    loopState (1 : α) 0 2 = (5, 0) ∧
    ¬ escaped (loopState (1 : α) 0 0) ∧ magnitudeSq (loopState (1 : α) 0 1) = 4 ∧
    ¬ escaped (loopState (1 : α) 0 1) ∧ escaped (loopState (1 : α) 0 2) := by
  have h0 : loopState (1 : α) 0 0 = (1, 0) := rfl
  have h1 : loopState (1 : α) 0 1 = (2, 0) := by
    simp only [loopState]; norm_num
  have h2 : loopState (1 : α) 0 2 = (5, 0) := by
    simp only [loopState]; norm_num
  have e0 : ¬ escaped (loopState (1 : α) 0 0) := by
    rw [h0]; simp only [escaped]; norm_num
  have e1 : ¬ escaped (loopState (1 : α) 0 1) := by
    rw [h1]; simp only [escaped]; norm_num
  have e2 : escaped (loopState (1 : α) 0 2) := by
    rw [h2]; simp only [escaped]; norm_num
  refine ⟨?_, h0, h1, h2, e0, ?_, e1, e2⟩
  · refine ((mandelbrotCheck_eq_iff (1 : α) 0).2 2 (by decide)).2 ⟨e2, fun j hj => ?_⟩
    interval_cases j
    · exact e0
    · exact e1
  · rw [h1]; simp only [magnitudeSq]; norm_num

/-- Claim C4: `mandelbrotCheck(0, 0)` returns `maxIterationCount` (100): the origin
never escapes within the iteration budget. -/
theorem mandelbrotCheck_origin :
    mandelbrotCheck (0 : α) 0 = maxIterationCount ∧ maxIterationCount = 100 :=
  ⟨mandelbrotLoop_origin maxIterationCount 0, rfl⟩

theorem specOrbit_eq_mandelbrotSequence (c : α × α) :
    ∀ k, specOrbit c k = mandelbrotSequence c (k + 1)
  | 0 => by
    simp only [specOrbit, mandelbrotSequence, complexAdd, complexMul]
    refine Prod.ext ?_ ?_
    · show c.1 = 0 * 0 - 0 * 0 + c.1
      ring
    · show c.2 = 0 * 0 + 0 * 0 + c.2
      ring
  | k + 1 => by
    rw [specOrbit, specOrbit_eq_mandelbrotSequence c k]
    rfl

/-- One step of `z ↦ z^2 + c` on squared magnitudes: once `|z|^2 ≥ 4` and
`|z|^2 ≥ |c|^2`, the squared magnitude grows by at least `2 * (|z|^2 - 4)`. -/
theorem magnitudeSq_step (z c : α × α) (hz : 4 ≤ magnitudeSq z)
    (hc : magnitudeSq c ≤ magnitudeSq z) :
    magnitudeSq z + 2 * (magnitudeSq z - 4) ≤ magnitudeSq (complexAdd (complexMul z z) c) := by
  obtain ⟨x, y⟩ := z
  obtain ⟨p, q⟩ := c
  simp only [magnitudeSq, complexAdd, complexMul] at *
  have hN : 0 ≤ x ^ 2 + y ^ 2 := by positivity
  have hC : 0 ≤ p ^ 2 + q ^ 2 := by positivity
  have hexp : (x * x - y * y + p) ^ 2 + (x * y + y * x + q) ^ 2 =
      (x ^ 2 + y ^ 2) ^ 2 + 2 * ((x * x - y * y) * p + (x * y + y * x) * q) +
        (p ^ 2 + q ^ 2) := by ring
  have hcs : ((x * x - y * y) * p + (x * y + y * x) * q) ^ 2 ≤
      ((x ^ 2 + y ^ 2) * ((p ^ 2 + q ^ 2) / 4 + 1)) ^ 2 := by
    have e : ((x ^ 2 + y ^ 2) * ((p ^ 2 + q ^ 2) / 4 + 1)) ^ 2 -
        ((x * x - y * y) * p + (x * y + y * x) * q) ^ 2 =
        ((x * x - y * y) * q - (x * y + y * x) * p) ^ 2 +
          ((x ^ 2 + y ^ 2) * ((p ^ 2 + q ^ 2) / 4 - 1)) ^ 2 := by ring
    have h1 : 0 ≤ ((x * x - y * y) * q - (x * y + y * x) * p) ^ 2 := sq_nonneg _
    have h2 : 0 ≤ ((x ^ 2 + y ^ 2) * ((p ^ 2 + q ^ 2) / 4 - 1)) ^ 2 := sq_nonneg _
    linarith
  have hR : -((x ^ 2 + y ^ 2) * ((p ^ 2 + q ^ 2) / 4 + 1)) ≤
      (x * x - y * y) * p + (x * y + y * x) * q :=
    (abs_le_of_sq_le_sq' hcs (by positivity)).1
  have hprod : 0 ≤ ((x ^ 2 + y ^ 2) - (p ^ 2 + q ^ 2)) * ((x ^ 2 + y ^ 2) / 2 - 1) :=
    mul_nonneg (by linarith) (by linarith)
  rw [hexp]
  nlinarith [sq_nonneg ((x ^ 2 + y ^ 2) - 4)]

/-- Once the sequence has `|z_k|^2 > 4` and `|z_k|^2 ≥ |c|^2`, its squared magnitudes
grow at least linearly. -/
theorem magnitudeSq_growth (c : α × α) (k : Nat)
    (hk : 4 < magnitudeSq (mandelbrotSequence c k))
    (hc : magnitudeSq c ≤ magnitudeSq (mandelbrotSequence c k)) :
    ∀ m : Nat, magnitudeSq (mandelbrotSequence c k) +
        (m : α) * (2 * (magnitudeSq (mandelbrotSequence c k) - 4)) ≤
      magnitudeSq (mandelbrotSequence c (k + m))
  | 0 => by simp
  | m + 1 => by
    have ih := magnitudeSq_growth c k hk hc m
    have hpos : 0 ≤ (m : α) * (2 * (magnitudeSq (mandelbrotSequence c k) - 4)) :=
      mul_nonneg (Nat.cast_nonneg m) (by linarith)
    have hstep := magnitudeSq_step (mandelbrotSequence c (k + m)) c (by linarith) (by linarith)
    have hs : mandelbrotSequence c (k + (m + 1)) =
        complexAdd (complexMul (mandelbrotSequence c (k + m)) (mandelbrotSequence c (k + m))) c :=
      rfl
    rw [hs]
    push_cast
    linarith

/-- A point whose sequence ever has squared magnitude above `4` (at an index `≥ 1`) is
not in the Mandelbrot set. -/
theorem not_inMandelbrotSet_of_escape [Archimedean α] (c : α × α) (k : Nat)
    (hk : 4 < magnitudeSq (mandelbrotSequence c (k + 1))) : ¬ InMandelbrotSet c := by
  rintro ⟨bound, hb⟩
  have h1 : mandelbrotSequence c 1 = c := (specOrbit_eq_mandelbrotSequence c 0).symm
  -- an index at which the sequence is above 4 and at least as large as `c`
  obtain ⟨j, hj, hcj⟩ : ∃ j, 4 < magnitudeSq (mandelbrotSequence c j) ∧
      magnitudeSq c ≤ magnitudeSq (mandelbrotSequence c j) := by
    by_cases hle : magnitudeSq c ≤ magnitudeSq (mandelbrotSequence c (k + 1))
    · exact ⟨k + 1, hk, hle⟩
    · refine ⟨1, ?_, ?_⟩
      · rw [h1]; linarith [not_le.1 hle]
      · rw [h1]
  have hδ : 0 < 2 * (magnitudeSq (mandelbrotSequence c j) - 4) := by linarith
  obtain ⟨m, hm⟩ := exists_nat_gt
    ((bound - magnitudeSq (mandelbrotSequence c j)) /
      (2 * (magnitudeSq (mandelbrotSequence c j) - 4)))
  rw [div_lt_iff₀ hδ] at hm
  have hg := magnitudeSq_growth c j hj hcj m
  have := hb (j + m)
  linarith

theorem mandelbrotSequence_origin : ∀ n, mandelbrotSequence ((0 : α), (0 : α)) n = (0, 0)
  | 0 => rfl
  | n + 1 => by
    have ih : mandelbrotSequence ((0 : α), (0 : α)) n = (0, 0) := mandelbrotSequence_origin n
    rw [mandelbrotSequence, ih]
    simp [complexAdd, complexMul]

/-- Claim C6: in exact arithmetic (the reals, or any Archimedean ordered field), for
every `c = (real, imaginary)` in the Mandelbrot set (the sequence `z_0 = 0`,
`z_{n+1} = z_n^2 + c` remains bounded), `mandelbrotCheck real imaginary` returns
`maxIterationCount`; equivalently a result below `maxIterationCount` is returned only
for points outside the set. -/
theorem mandelbrotCheck_of_inMandelbrotSet [Archimedean α] (real imaginary : α)
    (h : InMandelbrotSet (real, imaginary)) :
    mandelbrotCheck real imaginary = maxIterationCount := by
  rw [(mandelbrotCheck_eq_iff real imaginary).1]
  intro k _ hesc
  rw [escaped_iff_magnitudeSq, loopState_eq_specOrbit, specOrbit_eq_mandelbrotSequence] at hesc
  exact not_inMandelbrotSet_of_escape (real, imaginary) k hesc h

/-- Claim C6, instance: the origin is in the Mandelbrot set and `mandelbrotCheck 0 0`
returns `maxIterationCount`. -/
theorem mandelbrotCheck_of_inMandelbrotSet_witness :
    InMandelbrotSet ((0 : ℚ), (0 : ℚ)) ∧ mandelbrotCheck (0 : ℚ) 0 = maxIterationCount :=
  have hin : InMandelbrotSet ((0 : ℚ), (0 : ℚ)) :=
    ⟨0, fun n => by rw [mandelbrotSequence_origin n]; simp [magnitudeSq]⟩
  ⟨hin, mandelbrotCheck_of_inMandelbrotSet 0 0 hin⟩

end EvaluatorExact

section EvaluatorTotal

variable {α : Type} [Add α] [Sub α] [Mul α] [OfNat α 2] [OfNat α 4] [LT α]
  [DecidableRel (fun a b : α => a < b)]

/-- Claim C5: for every input, and every interpretation of the `double` arithmetic,
`mandelbrotCheck` is a total function whose result `r` satisfies
`0 ≤ r ≤ maxIterationCount`; the result is either an index at which the loop returned
or the value returned after the loop, there is no error branch. -/
theorem mandelbrotCheck_total_range (real imaginary : α) :
    ∃ r : Nat, mandelbrotCheck real imaginary = r ∧ 0 ≤ r ∧ r ≤ maxIterationCount ∧
      (r < maxIterationCount → escaped (loopState real imaginary r)) :=
  ⟨mandelbrotCheck real imaginary, rfl, Nat.zero_le _, mandelbrotCheck_le_max real imaginary,
    fun h => (((mandelbrotCheck_eq_iff real imaginary).2 _ h).1 rfl).1⟩

end EvaluatorTotal

/-! ## Theorems: viewport -/

section ViewportLemmas

variable {α : Type} [LinearOrderedField α]

theorem shiftX_eq (clickX : Int) :
    shiftX α clickX = min (max ((clickX : α) - 450) 0) 900 := by
  have h1 : (windowSizeX : α) / (2 * zoomValue α) = 450 := by
    norm_num [windowSizeX, zoomValue]
  have h2 : (windowSizeX : α) - (windowSizeX : α) / zoomValue α = 900 := by
    norm_num [windowSizeX, zoomValue]
  simp only [shiftX, h1, h2]
  by_cases h : (clickX : α) - 450 < 0
  · rw [if_pos h, if_neg (by norm_num), max_eq_right (le_of_lt h), min_eq_left (by norm_num)]
  · rw [if_neg h, max_eq_left (not_lt.1 h)]
    by_cases h3 : (clickX : α) - 450 > 900
    · rw [if_pos h3, min_eq_right (le_of_lt h3)]
    · rw [if_neg h3, min_eq_left (not_lt.1 h3)]

theorem shiftY_eq (clickY : Int) :
    shiftY α clickY = min (max ((clickY : α) - 300) 0) 600 := by
  have h1 : (windowSizeY : α) / (2 * zoomValue α) = 300 := by
    norm_num [windowSizeY, zoomValue]
  have h2 : (windowSizeY : α) - (windowSizeY : α) / zoomValue α = 600 := by
    norm_num [windowSizeY, zoomValue]
  simp only [shiftY, h1, h2]
  by_cases h : (clickY : α) - 300 < 0
  · rw [if_pos h, if_neg (by norm_num), max_eq_right (le_of_lt h), min_eq_left (by norm_num)]
  · rw [if_neg h, max_eq_left (not_lt.1 h)]
    by_cases h3 : (clickY : α) - 300 > 600
    · rw [if_pos h3, min_eq_right (le_of_lt h3)]
    · rw [if_neg h3, min_eq_left (not_lt.1 h3)]

theorem shiftX_nonneg (clickX : Int) : 0 ≤ shiftX α clickX := by
  rw [shiftX_eq]; exact le_min (le_max_right _ _) (by norm_num)

theorem shiftX_le (clickX : Int) : shiftX α clickX ≤ 900 := by
  rw [shiftX_eq]; exact min_le_right _ _

theorem shiftY_nonneg (clickY : Int) : 0 ≤ shiftY α clickY := by
  rw [shiftY_eq]; exact le_min (le_max_right _ _) (by norm_num)

theorem shiftY_le (clickY : Int) : shiftY α clickY ≤ 600 := by
  rw [shiftY_eq]; exact min_le_right _ _

theorem shiftX_half_iff (clickX : Int) :
    2 * shiftX α clickX ≤ 1799 ↔ clickX ≤ 1349 := by
  rw [shiftX_eq]
  constructor
  · intro h
    by_contra hc
    have h1 : (1350 : Int) ≤ clickX := by omega
    have h2 : (1350 : α) ≤ (clickX : α) := by exact_mod_cast h1
    have h3 : max ((clickX : α) - 450) 0 = (clickX : α) - 450 := max_eq_left (by linarith)
    rw [h3, min_eq_right (by linarith)] at h
    norm_num at h
  · intro h
    have h2 : (clickX : α) ≤ 1349 := by exact_mod_cast h
    have h3 : min (max ((clickX : α) - 450) 0) 900 ≤ max ((clickX : α) - 450) 0 :=
      min_le_left _ _
    have h4 : max ((clickX : α) - 450) 0 ≤ 899 := max_le (by linarith) (by norm_num)
    linarith

theorem shiftY_half_iff (clickY : Int) :
    2 * shiftY α clickY ≤ 1199 ↔ clickY ≤ 899 := by
  rw [shiftY_eq]
  constructor
  · intro h
    by_contra hc
    have h1 : (900 : Int) ≤ clickY := by omega
    have h2 : (900 : α) ≤ (clickY : α) := by exact_mod_cast h1
    have h3 : max ((clickY : α) - 300) 0 = (clickY : α) - 300 := max_eq_left (by linarith)
    rw [h3, min_eq_right (by linarith)] at h
    norm_num at h
  · intro h
    have h2 : (clickY : α) ≤ 899 := by exact_mod_cast h
    have h3 : min (max ((clickY : α) - 300) 0) 600 ≤ max ((clickY : α) - 300) 0 :=
      min_le_left _ _
    have h4 : max ((clickY : α) - 300) 0 ≤ 599 := max_le (by linarith) (by norm_num)
    linarith

theorem planeX_zoomStep (v : Viewport α) (clickX clickY : Int) (first : Nat) :
    planeX (zoomStep v clickX clickY) first =
      v.xLeftBound + shiftX α clickX * v.pixelLengthX + (first : α) * (v.pixelLengthX / 2) :=
  rfl

theorem planeY_zoomStep (v : Viewport α) (clickX clickY : Int) (second : Nat) :
    planeY (zoomStep v clickX clickY) second =
      v.yBottomBound + shiftY α clickY * v.pixelLengthY + (second : α) * (v.pixelLengthY / 2) :=
  rfl

/-- One axis of the containment question: with a positive pixel length `p`, a shift `s`
and `n` pixel steps, the far edge after the zoom stays within the old far edge exactly
when `2 * s ≤ n`. -/
theorem far_edge_iff (l p s n : α) (hp : 0 < p) :
    l + s * p + n * (p / 2) ≤ l + n * p ↔ 2 * s ≤ n := by
  constructor
  · intro h
    have h1 : (2 * s - n) * p ≤ 0 := by linarith
    by_contra hc
    have h2 : 0 < (2 * s - n) * p := mul_pos (by linarith [not_le.1 hc]) hp
    linarith
  · intro h
    have h1 : 0 ≤ (n - 2 * s) * p := mul_nonneg (by linarith) (le_of_lt hp)
    linarith

/-- Claim C7, amended: with the arithmetic read exactly, for every viewport state with
positive pixel lengths and every click, the window after the zoom step never extends
outside the previous window on its left and bottom sides; on the right and top sides it
extends beyond the previous window by at most half a previous pixel length; and it is
contained in the previous window exactly when `clickX ≤ 1349` and `clickY ≤ 899`. -/
theorem zoomStep_window (v : Viewport α) (clickX clickY : Int)
    (hx : 0 < v.pixelLengthX) (hy : 0 < v.pixelLengthY) :
    planeX v 0 ≤ planeX (zoomStep v clickX clickY) 0 ∧
    planeY v 0 ≤ planeY (zoomStep v clickX clickY) 0 ∧
    planeX (zoomStep v clickX clickY) (windowSizeX - 1) ≤
      planeX v (windowSizeX - 1) + v.pixelLengthX / 2 ∧
    planeY (zoomStep v clickX clickY) (windowSizeY - 1) ≤
      planeY v (windowSizeY - 1) + v.pixelLengthY / 2 ∧
    (windowWithin (zoomStep v clickX clickY) v ↔ clickX ≤ 1349 ∧ clickY ≤ 899) := by
  have sx0 := shiftX_nonneg (α := α) clickX
  have sx1 := shiftX_le (α := α) clickX
  have sy0 := shiftY_nonneg (α := α) clickY
  have sy1 := shiftY_le (α := α) clickY
  have mx0 : 0 ≤ shiftX α clickX * v.pixelLengthX := mul_nonneg sx0 (le_of_lt hx)
  have my0 : 0 ≤ shiftY α clickY * v.pixelLengthY := mul_nonneg sy0 (le_of_lt hy)
  have mx1 : shiftX α clickX * v.pixelLengthX ≤ 900 * v.pixelLengthX :=
    mul_le_mul_of_nonneg_right sx1 (le_of_lt hx)
  have my1 : shiftY α clickY * v.pixelLengthY ≤ 600 * v.pixelLengthY :=
    mul_le_mul_of_nonneg_right sy1 (le_of_lt hy)
  have cx : ((windowSizeX - 1 : Nat) : α) = 1799 := by norm_num [windowSizeX]
  have cy : ((windowSizeY - 1 : Nat) : α) = 1199 := by norm_num [windowSizeY]
  have left : planeX v 0 ≤ planeX (zoomStep v clickX clickY) 0 := by
    rw [planeX_zoomStep]; simp only [planeX]; push_cast; linarith
  have bottom : planeY v 0 ≤ planeY (zoomStep v clickX clickY) 0 := by
    rw [planeY_zoomStep]; simp only [planeY]; push_cast; linarith
  refine ⟨left, bottom, ?_, ?_, ?_⟩
  · rw [planeX_zoomStep]; simp only [planeX]; rw [cx]; linarith
  · rw [planeY_zoomStep]; simp only [planeY]; rw [cy]; linarith
  · have rx := far_edge_iff v.xLeftBound v.pixelLengthX (shiftX α clickX) 1799 hx
    have ry := far_edge_iff v.yBottomBound v.pixelLengthY (shiftY α clickY) 1199 hy
    rw [shiftX_half_iff] at rx
    rw [shiftY_half_iff] at ry
    have ex : planeX (zoomStep v clickX clickY) (windowSizeX - 1) ≤
        planeX v (windowSizeX - 1) ↔ clickX ≤ 1349 := by
      rw [planeX_zoomStep]; simp only [planeX]; rw [cx]; exact rx
    have ey : planeY (zoomStep v clickX clickY) (windowSizeY - 1) ≤
        planeY v (windowSizeY - 1) ↔ clickY ≤ 899 := by
      rw [planeY_zoomStep]; simp only [planeY]; rw [cy]; exact ry
    unfold windowWithin
    exact ⟨fun h => ⟨ex.1 h.2.1, ey.1 h.2.2.2⟩, fun h => ⟨left, ex.2 h.1, bottom, ey.2 h.2⟩⟩

/-- Claim C7, instance of the amended statement: from the initial state a click at
`(900, 600)` gives a window contained in the initial one. -/
theorem zoomStep_window_witness :
    (0 : ℚ) < (initialViewport : Viewport ℚ).pixelLengthX ∧
    (0 : ℚ) < (initialViewport : Viewport ℚ).pixelLengthY ∧
    windowWithin (zoomStep (initialViewport : Viewport ℚ) 900 600) initialViewport := by
  have hx : (0 : ℚ) < (initialViewport : Viewport ℚ).pixelLengthX := by
    norm_num [initialViewport, windowSizeX]
  have hy : (0 : ℚ) < (initialViewport : Viewport ℚ).pixelLengthY := by
    norm_num [initialViewport, windowSizeY]
  exact ⟨hx, hy, (zoomStep_window initialViewport 900 600 hx hy).2.2.2.2.2
    ⟨by decide, by decide⟩⟩

/-- Claim C7 as stated fails: from the initial state a click at the last pixel
`(1799, 1199)` gives a window whose right edge `1 + 3/3598` lies beyond the previous
right edge `1` (and whose top edge lies beyond the previous top edge). -/
theorem zoomStep_window_not_within :
    (0 : ℚ) < (initialViewport : Viewport ℚ).pixelLengthX ∧
    (0 : ℚ) < (initialViewport : Viewport ℚ).pixelLengthY ∧
    planeX (initialViewport : Viewport ℚ) (windowSizeX - 1) = 1 ∧
    planeX (zoomStep (initialViewport : Viewport ℚ) 1799 1199) (windowSizeX - 1) =
      1 + 3 / 3598 ∧
    ¬ windowWithin (zoomStep (initialViewport : Viewport ℚ) 1799 1199) initialViewport := by
  refine ⟨?_, ?_, ?_, ?_, ?_⟩
  · norm_num [initialViewport, windowSizeX]
  · norm_num [initialViewport, windowSizeY]
  · norm_num [planeX, initialViewport, windowSizeX]
  · norm_num [planeX, zoomStep, shiftBounds, shiftX, zoomValue, initialViewport, windowSizeX]
  · norm_num [windowWithin, planeX, planeY, zoomStep, shiftBounds, shiftX, shiftY,
      zoomValue, initialViewport, windowSizeX, windowSizeY]

theorem shiftX_unclamped (clickX : Int) (h1 : (450 : α) ≤ (clickX : α))
    (h2 : (clickX : α) ≤ 1350) : shiftX α clickX = (clickX : α) - 450 := by
  rw [shiftX_eq, max_eq_left (by linarith), min_eq_left (by linarith)]

theorem shiftY_unclamped (clickY : Int) (h1 : (300 : α) ≤ (clickY : α))
    (h2 : (clickY : α) ≤ 900) : shiftY α clickY = (clickY : α) - 300 := by
  rw [shiftY_eq, max_eq_left (by linarith), min_eq_left (by linarith)]

theorem cast_toNat_of_le (c : Int) (b : α) (hb : 0 ≤ b) (h : b ≤ (c : α)) :
    ((c.toNat : Nat) : α) = (c : α) := by
  have h0 : (0 : Int) ≤ c := by
    have : ((0 : Int) : α) ≤ (c : α) := by
      rw [Int.cast_zero]; exact le_trans hb h
    exact Int.cast_le.1 this
  have h1 : ((c.toNat : Nat) : Int) = c := Int.toNat_of_nonneg h0
  calc ((c.toNat : Nat) : α) = (((c.toNat : Nat) : Int) : α) := (Int.cast_natCast _).symm
    _ = (c : α) := by rw [h1]

/-- Claim C8, amended: with the arithmetic read exactly, for every viewport state and
every click whose shift is not clamped
(`windowSizeX / (2 * zoomValue) ≤ clickX ≤ windowSizeX - windowSizeX / (2 * zoomValue)`
and likewise for Y), the zoom step keeps the clicked point centred: the plane point of
pixel `(clickX, clickY)` before the zoom is the plane point of pixel
`(windowSizeX / 2, windowSizeY / 2)` after it, and both pixel lengths are divided by
`zoomValue`. -/
theorem zoomStep_centres_click (v : Viewport α) (clickX clickY : Int)
    (hx1 : (windowSizeX : α) / (2 * zoomValue α) ≤ (clickX : α))
    (hx2 : (clickX : α) ≤ (windowSizeX : α) - (windowSizeX : α) / (2 * zoomValue α))
    (hy1 : (windowSizeY : α) / (2 * zoomValue α) ≤ (clickY : α))
    (hy2 : (clickY : α) ≤ (windowSizeY : α) - (windowSizeY : α) / (2 * zoomValue α)) :
    planeX (zoomStep v clickX clickY) (windowSizeX / 2) = planeX v clickX.toNat ∧
    planeY (zoomStep v clickX clickY) (windowSizeY / 2) = planeY v clickY.toNat ∧
    (zoomStep v clickX clickY).pixelLengthX = v.pixelLengthX / zoomValue α ∧
    (zoomStep v clickX clickY).pixelLengthY = v.pixelLengthY / zoomValue α := by
  have ax : (windowSizeX : α) / (2 * zoomValue α) = 450 := by
    norm_num [windowSizeX, zoomValue]
  have bx : (windowSizeX : α) - (windowSizeX : α) / (2 * zoomValue α) = 1350 := by
    norm_num [windowSizeX, zoomValue]
  have ay : (windowSizeY : α) / (2 * zoomValue α) = 300 := by
    norm_num [windowSizeY, zoomValue]
  have by1 : (windowSizeY : α) - (windowSizeY : α) / (2 * zoomValue α) = 900 := by
    norm_num [windowSizeY, zoomValue]
  rw [ax] at hx1
  rw [bx] at hx2
  rw [ay] at hy1
  rw [by1] at hy2
  have mx : ((windowSizeX / 2 : Nat) : α) = 900 := by norm_num [windowSizeX]
  have my : ((windowSizeY / 2 : Nat) : α) = 600 := by norm_num [windowSizeY]
  refine ⟨?_, ?_, rfl, rfl⟩
  · rw [planeX_zoomStep, shiftX_unclamped clickX hx1 hx2, mx]
    simp only [planeX]
    rw [cast_toNat_of_le clickX 450 (by norm_num) hx1]
    ring
  · rw [planeY_zoomStep, shiftY_unclamped clickY hy1 hy2, my]
    simp only [planeY]
    rw [cast_toNat_of_le clickY 300 (by norm_num) hy1]
    ring

/-- Claim C8, end-to-end instance (arithmetic read exactly): from the initial state a
click at `(900, 600)` with zoom factor `2` leaves the plane coordinate of pixel
`(900, 600)` unchanged and halves `pixelLengthX` and `pixelLengthY`. -/
theorem zoomStep_centres_click_witness :
    zoomValue ℚ = 2 ∧
    planeX (zoomStep (initialViewport : Viewport ℚ) 900 600) 900 =
      planeX (initialViewport : Viewport ℚ) 900 ∧
    planeY (zoomStep (initialViewport : Viewport ℚ) 900 600) 600 =
      planeY (initialViewport : Viewport ℚ) 600 ∧
    (zoomStep (initialViewport : Viewport ℚ) 900 600).pixelLengthX =
      (initialViewport : Viewport ℚ).pixelLengthX / 2 ∧
    (zoomStep (initialViewport : Viewport ℚ) 900 600).pixelLengthY =
      (initialViewport : Viewport ℚ).pixelLengthY / 2 :=
  ⟨rfl, zoomStep_centres_click (initialViewport : Viewport ℚ) 900 600
    (by norm_num [windowSizeX, zoomValue]) (by norm_num [windowSizeX, zoomValue])
    (by norm_num [windowSizeY, zoomValue]) (by norm_num [windowSizeY, zoomValue])⟩

/-- Claim C9: for every click position, including positions outside the window, the
clamped shifts satisfy `0 ≤ shiftX ≤ windowSizeX - windowSizeX / zoomValue = 900` and
`0 ≤ shiftY ≤ windowSizeY - windowSizeY / zoomValue = 600`; a click at `(0, 0)` gives
shift `(0, 0)` and a click at `(windowSizeX - 1, windowSizeY - 1)` gives a shift not
exceeding the upper limit. -/
theorem shift_clamped (clickX clickY : Int) :
    0 ≤ shiftX α clickX ∧
    shiftX α clickX ≤ (windowSizeX : α) - (windowSizeX : α) / zoomValue α ∧
    0 ≤ shiftY α clickY ∧
    shiftY α clickY ≤ (windowSizeY : α) - (windowSizeY : α) / zoomValue α ∧
    (windowSizeX : α) - (windowSizeX : α) / zoomValue α = 900 ∧
    (windowSizeY : α) - (windowSizeY : α) / zoomValue α = 600 ∧
    shiftX α 0 = 0 ∧ shiftY α 0 = 0 ∧
    shiftX α ((windowSizeX - 1 : Nat) : Int) ≤
      (windowSizeX : α) - (windowSizeX : α) / zoomValue α ∧
    shiftY α ((windowSizeY - 1 : Nat) : Int) ≤
      (windowSizeY : α) - (windowSizeY : α) / zoomValue α := by
  have ux : (windowSizeX : α) - (windowSizeX : α) / zoomValue α = 900 := by
    norm_num [windowSizeX, zoomValue]
  have uy : (windowSizeY : α) - (windowSizeY : α) / zoomValue α = 600 := by
    norm_num [windowSizeY, zoomValue]
  rw [ux, uy]
  refine ⟨shiftX_nonneg clickX, shiftX_le clickX, shiftY_nonneg clickY, shiftY_le clickY,
    rfl, rfl, ?_, ?_, shiftX_le _, shiftY_le _⟩
  · rw [shiftX_eq]; norm_num
  · rw [shiftY_eq]; norm_num

end ViewportLemmas

/-! ## Theorems: pixel enumeration -/

section PixelEnumeration

theorem next_pixelAt (k : Nat) :
    WindowIterator.next { state := pixelAt k } = { state := pixelAt (k + 1) } := by
  simp only [WindowIterator.next, pixelAt, windowSizeX]
  split
  · congr 2 <;> omega
  · congr 2 <;> omega

theorem ne_end_pixelAt (k : Nat) :
    WindowIterator.ne { state := pixelAt k } WindowIterator.end_ =
      decide (k ≠ windowSizeX * windowSizeY - 1) := by
  simp only [WindowIterator.ne, WindowIterator.end_, pixelAt, windowSizeX, windowSizeY,
    bne_iff_ne, ne_eq, Prod.mk.injEq, decide_not]
  by_cases h : k = 1800 * 1200 - 1
  · subst h; decide
  · have : ¬ (k % 1800 = 1800 - 1 ∧ k / 1800 = 1200 - 1) := by omega
    simp [h, this]

/-- Started `n` increments before the last pixel, the loop runs its body on the next `n`
pixels in row-major order and then stops, within `n + 1` evaluations of its condition. -/
theorem drawLoop_pixelAt :
    ∀ (n k : Nat), k + n = windowSizeX * windowSizeY - 1 →
      drawLoop (n + 1) { state := pixelAt k } = some ((List.range' k n).map pixelAt)
  | 0, k, h => by
    have hk : k = windowSizeX * windowSizeY - 1 := by omega
    simp only [drawLoop, ne_end_pixelAt]
    simp [hk]
  | n + 1, k, h => by
    have hk : k ≠ windowSizeX * windowSizeY - 1 := by omega
    have ih := drawLoop_pixelAt n (k + 1) (by omega)
    rw [drawLoop, ne_end_pixelAt, next_pixelAt, ih]
    simp [hk, List.range'_succ]

/-- One call of `draw` ends and runs its body on the pixels with row-major index
`0, 1, ..., windowSizeX * windowSizeY - 2`, in this order. -/
theorem drawPixels_eq :
    drawPixels =
      some ((List.range' 0 (windowSizeX * windowSizeY - 1)).map pixelAt) :=
  drawLoop_pixelAt (windowSizeX * windowSizeY - 1) 0 (by omega)

/-- Claim C10, evaluated on the code: one call of `draw` ends having run its body on
every pixel of the raster except the last one; pixel
`(windowSizeX - 1, windowSizeY - 1) = (1799, 1199)` is never evaluated nor coloured,
because `end()` is that pixel and the loop stops on reaching it. -/
theorem drawPixels_misses_last_pixel :
    ∃ pixels : List pixel, drawPixels = some pixels ∧
      (windowSizeX - 1, windowSizeY - 1) ∉ pixels ∧
      (1799, 1199) ∉ pixels ∧
      ∀ x y : Nat, x < windowSizeX → y < windowSizeY →
        (x, y) ≠ (windowSizeX - 1, windowSizeY - 1) → (x, y) ∈ pixels := by
  have hlast : ∀ k, k < windowSizeX * windowSizeY - 1 → pixelAt k ≠ (1799, 1199) := by
    intro k hk h
    simp only [pixelAt, windowSizeX, windowSizeY, Prod.mk.injEq] at hk h
    omega
  refine ⟨_, drawPixels_eq, ?_, ?_, ?_⟩
  · simp only [List.mem_map, List.mem_range'_1, not_exists, not_and]
    intro k hk
    exact hlast k (by omega)
  · simp only [List.mem_map, List.mem_range'_1, not_exists, not_and]
    intro k hk
    exact hlast k (by omega)
  · intro x y hx hy hne
    simp only [List.mem_map, List.mem_range'_1]
    simp only [windowSizeX, windowSizeY, ne_eq, Prod.mk.injEq] at hx hy hne ⊢
    refine ⟨y * 1800 + x, ⟨Nat.zero_le _, by omega⟩, ?_⟩
    simp only [pixelAt, windowSizeX, Prod.mk.injEq]
    constructor <;> omega

end PixelEnumeration

/-! ## Theorems: colour selection -/

section ColourSelection

theorem toSizeT_natCast (i : Nat) (h : i < 2 ^ 64) : toSizeT (i : Int) = i := by
  unfold toSizeT
  have h1 : ((i : Int)) % (2 : Int) ^ 64 = (i : Int) :=
    Int.emod_eq_of_lt (Int.natCast_nonneg i) (by exact_mod_cast h)
  rw [h1, Int.toNat_natCast]

theorem toSizeT_of_le_max (i : Nat) (h : i ≤ maxIterationCount) : toSizeT (i : Int) = i :=
  toSizeT_natCast i (lt_of_le_of_lt h (by decide))

/-- No entry of the palette `colors` is black. -/
theorem colors_not_black : ∀ c ∈ colors, c ≠ { r := 0, g := 0, b := 0 } := by
  decide

/-- The value of `selectColor` on a count other than `maxIterationCount` is the palette
entry at the count modulo `colorCount`. -/
theorem selectColor_of_ne (i : Nat) (h : i ≤ maxIterationCount) (hne : i ≠ maxIterationCount) :
    some (selectColor (i : Int)) = colors[i % colorCount]? := by
  unfold selectColor
  rw [if_neg (by rw [toSizeT_of_le_max i h]; exact hne)]
  simp only [toSizeT_of_le_max i h, List.get_eq_getElem]
  rw [List.getElem?_eq_getElem]

theorem selectColor_max : selectColor (maxIterationCount : Int) = { r := 0, g := 0, b := 0 } := by
  unfold selectColor
  rw [if_pos (toSizeT_of_le_max maxIterationCount (le_refl _))]

/-- Claim C11: for every iteration count `i` with `0 ≤ i < maxIterationCount`,
`selectColor i` is the palette entry `colors[i mod colorCount]`, where
`colorCount = 10`; and `selectColor maxIterationCount` is exactly black `(0, 0, 0)`. -/
theorem selectColor_palette :
    (∀ i : Nat, i < maxIterationCount →
      some (selectColor (i : Int)) = colors[i % colorCount]?) ∧
    colorCount = 10 ∧
    selectColor (maxIterationCount : Int) = { r := 0, g := 0, b := 0 } :=
  ⟨fun i h => selectColor_of_ne i (le_of_lt h) (ne_of_lt h), rfl, selectColor_max⟩

end ColourSelection

section ColourOfCheck

variable {α : Type} [Add α] [Sub α] [Mul α] [OfNat α 2] [OfNat α 4] [LT α]
  [DecidableRel (fun a b : α => a < b)]

/-- Claim C18: for every iteration count `i` with `0 ≤ i ≤ maxIterationCount`,
`selectColor i` is black `(0, 0, 0)` if and only if `i = maxIterationCount`, because no
palette entry is black; so a pixel is drawn black exactly when `mandelbrotCheck`
reported no escape within the budget. -/
theorem selectColor_black_iff :
    (∀ i : Nat, i ≤ maxIterationCount →
      (selectColor (i : Int) = { r := 0, g := 0, b := 0 } ↔ i = maxIterationCount)) ∧
    (∀ c ∈ colors, c ≠ { r := 0, g := 0, b := 0 }) ∧
    (∀ real imaginary : α,
      selectColor ((mandelbrotCheck real imaginary : Nat) : Int) = { r := 0, g := 0, b := 0 } ↔
        mandelbrotCheck real imaginary = maxIterationCount) := by
  have key : ∀ i : Nat, i ≤ maxIterationCount →
      (selectColor (i : Int) = { r := 0, g := 0, b := 0 } ↔ i = maxIterationCount) := by
    intro i h
    constructor
    · intro hb
      by_contra hne
      have hsel := selectColor_of_ne i h hne
      rw [hb] at hsel
      have hmem : ({ r := 0, g := 0, b := 0 } : color) ∈ colors :=
        List.getElem?_mem hsel.symm
      exact colors_not_black _ hmem rfl
    · intro he
      rw [he]
      exact selectColor_max
  exact ⟨key, colors_not_black, fun real imaginary =>
    key _ (mandelbrotCheck_le_max real imaginary)⟩

end ColourOfCheck

/-! ## Theorems: symmetry of the evaluator -/

section Symmetry

variable {α : Type} [LinearOrderedField α]

/-- The loop run on conjugate data returns the same index. -/
theorem mandelbrotLoop_conj (real0 imaginary0 : α) :
    ∀ (remaining i : Nat) (real imaginary : α),
      mandelbrotLoop real0 (-imaginary0) remaining i real (-imaginary) =
        mandelbrotLoop real0 imaginary0 remaining i real imaginary
  | 0, _, _, _ => rfl
  | remaining + 1, i, real, imaginary => by
    simp only [mandelbrotLoop, neg_mul_neg]
    have h : 2 * real * -imaginary + -imaginary0 = -(2 * real * imaginary + imaginary0) := by
      ring
    rw [h, mandelbrotLoop_conj real0 imaginary0 remaining (i + 1)]

theorem planeY_initial_mirror (py : Nat) (h : py < windowSizeY) :
    planeY (initialViewport : Viewport α) (windowSizeY - 1 - py) =
      -planeY (initialViewport : Viewport α) py := by
  have hle : py ≤ windowSizeY - 1 := by omega
  simp only [planeY, initialViewport]
  rw [Nat.cast_sub hle]
  have hc : ((windowSizeY - 1 : Nat) : α) = 1199 := by norm_num [windowSizeY]
  rw [hc]
  field_simp
  ring

/-- Claim C17: `mandelbrotCheck` is symmetric under complex conjugation (exact
arithmetic): `mandelbrotCheck real (-imaginary) = mandelbrotCheck real imaginary` for
every input; in the initial state the rows `py` and `windowSizeY - 1 - py` of the raster
are mirror images about the real axis and get the same escape counts. -/
theorem mandelbrotCheck_conj :
    (∀ real imaginary : α,
      mandelbrotCheck real (-imaginary) = mandelbrotCheck real imaginary) ∧
    (∀ px py : Nat, py < windowSizeY →
      mandelbrotCheck (planeX (initialViewport : Viewport α) px)
          (planeY (initialViewport : Viewport α) (windowSizeY - 1 - py)) =
        mandelbrotCheck (planeX (initialViewport : Viewport α) px)
          (planeY (initialViewport : Viewport α) py)) := by
  have key : ∀ real imaginary : α,
      mandelbrotCheck real (-imaginary) = mandelbrotCheck real imaginary :=
    fun real imaginary => mandelbrotLoop_conj real imaginary maxIterationCount 0 real imaginary
  refine ⟨key, fun px py h => ?_⟩
  rw [planeY_initial_mirror py h, key]

end Symmetry

/-! ## Theorems: zoom history -/

section ZoomHistory

variable {α : Type} [LinearOrderedField α]

theorem afterClicks_nil : (afterClicks [] : Viewport α) = initialViewport := rfl

theorem afterClicks_snoc (clicks : List (Int × Int)) (click : Int × Int) :
    (afterClicks (clicks ++ [click]) : Viewport α) =
      zoomStep (afterClicks clicks) click.1 click.2 := by
  simp [afterClicks, List.foldl_append]

theorem initial_pixelLengthX : (initialViewport : Viewport α).pixelLengthX = 3 / 1799 := by
  norm_num [initialViewport, windowSizeX]

theorem initial_pixelLengthY : (initialViewport : Viewport α).pixelLengthY = 2 / 1199 := by
  norm_num [initialViewport, windowSizeY]

/-- After `n` zoom clicks both pixel lengths are the initial ones divided by
`zoomValue ^ n`, wherever the clicks were. -/
theorem afterClicks_pixelLength (clicks : List (Int × Int)) :
    (afterClicks clicks : Viewport α).pixelLengthX = 3 / 1799 / zoomValue α ^ clicks.length ∧
    (afterClicks clicks : Viewport α).pixelLengthY = 2 / 1199 / zoomValue α ^ clicks.length := by
  induction clicks using List.reverseRecOn with
  | nil => simp [afterClicks_nil, initial_pixelLengthX, initial_pixelLengthY]
  | append_singleton clicks click ih =>
    rw [afterClicks_snoc, List.length_append, List.length_singleton, pow_succ]
    have hx : (zoomStep (afterClicks clicks : Viewport α) click.1 click.2).pixelLengthX =
        (afterClicks clicks : Viewport α).pixelLengthX / zoomValue α := rfl
    have hy : (zoomStep (afterClicks clicks : Viewport α) click.1 click.2).pixelLengthY =
        (afterClicks clicks : Viewport α).pixelLengthY / zoomValue α := rfl
    rw [hx, hy, ih.1, ih.2]
    exact ⟨div_div _ _ _, div_div _ _ _⟩

theorem zoomValue_pow_pos (n : Nat) : 0 < zoomValue α ^ n :=
  pow_pos (by norm_num [zoomValue]) n

theorem afterClicks_pixelLength_pos (clicks : List (Int × Int)) :
    0 < (afterClicks clicks : Viewport α).pixelLengthX ∧
    0 < (afterClicks clicks : Viewport α).pixelLengthY := by
  rw [(afterClicks_pixelLength clicks).1, (afterClicks_pixelLength clicks).2]
  exact ⟨div_pos (by norm_num) (zoomValue_pow_pos _), div_pos (by norm_num) (zoomValue_pow_pos _)⟩

/-- Claim C13: in every state reachable from the initial state by `n` zoom clicks at
any positions, `pixelLengthX = (3/1799) / zoomValue^n` and
`pixelLengthY = (2/1199) / zoomValue^n` (exact arithmetic), so both stay strictly
positive, and each zoom divides both by exactly `zoomValue` wherever the click was. -/
theorem pixelLength_after_zooms (clicks : List (Int × Int)) :
    (afterClicks clicks : Viewport α).pixelLengthX = 3 / 1799 / zoomValue α ^ clicks.length ∧
    (afterClicks clicks : Viewport α).pixelLengthY = 2 / 1199 / zoomValue α ^ clicks.length ∧
    0 < (afterClicks clicks : Viewport α).pixelLengthX ∧
    0 < (afterClicks clicks : Viewport α).pixelLengthY ∧
    (∀ click : Int × Int,
      (afterClicks (clicks ++ [click]) : Viewport α).pixelLengthX =
        (afterClicks clicks : Viewport α).pixelLengthX / zoomValue α ∧
      (afterClicks (clicks ++ [click]) : Viewport α).pixelLengthY =
        (afterClicks clicks : Viewport α).pixelLengthY / zoomValue α) :=
  ⟨(afterClicks_pixelLength clicks).1, (afterClicks_pixelLength clicks).2,
    (afterClicks_pixelLength_pos clicks).1, (afterClicks_pixelLength_pos clicks).2,
    fun click => by rw [afterClicks_snoc]; exact ⟨rfl, rfl⟩⟩

/-- Claim C14: in the initial state the raster spans exactly the initial plane bounds
(exact arithmetic): pixel `(0, 0)` maps to `(-2, -1)`, pixel
`(windowSizeX - 1, windowSizeY - 1)` maps to `(1, 1)`, and every pixel `(px, py)` with
`px < windowSizeX`, `py < windowSizeY` maps to a point with `-2 ≤ x ≤ 1`, `-1 ≤ y ≤ 1`. -/
theorem initial_raster_spans_bounds :
    planeX (initialViewport : Viewport α) 0 = -2 ∧
    planeY (initialViewport : Viewport α) 0 = -1 ∧
    planeX (initialViewport : Viewport α) (windowSizeX - 1) = 1 ∧
    planeY (initialViewport : Viewport α) (windowSizeY - 1) = 1 ∧
    (∀ px py : Nat, px < windowSizeX → py < windowSizeY →
      -2 ≤ planeX (initialViewport : Viewport α) px ∧
      planeX (initialViewport : Viewport α) px ≤ 1 ∧
      -1 ≤ planeY (initialViewport : Viewport α) py ∧
      planeY (initialViewport : Viewport α) py ≤ 1) := by
  have ex : ∀ px : Nat, planeX (initialViewport : Viewport α) px = -2 + (px : α) * (3 / 1799) := by
    intro px
    rw [planeX, initial_pixelLengthX]
    rfl
  have ey : ∀ py : Nat, planeY (initialViewport : Viewport α) py = -1 + (py : α) * (2 / 1199) := by
    intro py
    rw [planeY, initial_pixelLengthY]
    rfl
  refine ⟨?_, ?_, ?_, ?_, fun px py hx hy => ?_⟩
  · rw [ex]; norm_num
  · rw [ey]; norm_num
  · rw [ex]; norm_num [windowSizeX]
  · rw [ey]; norm_num [windowSizeY]
  · have h0x : (0 : α) ≤ (px : α) := Nat.cast_nonneg px
    have h0y : (0 : α) ≤ (py : α) := Nat.cast_nonneg py
    have h1x : (px : α) ≤ 1799 := by
      have : px ≤ 1799 := by simp only [windowSizeX] at hx; omega
      exact_mod_cast this
    have h1y : (py : α) ≤ 1199 := by
      have : py ≤ 1199 := by simp only [windowSizeY] at hy; omega
      exact_mod_cast this
    rw [ex, ey]
    refine ⟨?_, ?_, ?_, ?_⟩ <;> linarith

/-- One zoom step on the X axis: the left bound does not decrease and the extent of
`windowSizeX` pixel cells does not grow. -/
theorem zoomStep_cornerX (v : Viewport α) (clickX clickY : Int) (hx : 0 < v.pixelLengthX) :
    v.xLeftBound ≤ (zoomStep v clickX clickY).xLeftBound ∧
    (zoomStep v clickX clickY).xLeftBound +
        (windowSizeX : α) * (zoomStep v clickX clickY).pixelLengthX ≤
      v.xLeftBound + (windowSizeX : α) * v.pixelLengthX := by
  have s0 : 0 ≤ shiftX α clickX * v.pixelLengthX :=
    mul_nonneg (shiftX_nonneg clickX) (le_of_lt hx)
  have s1 : shiftX α clickX * v.pixelLengthX ≤ 900 * v.pixelLengthX :=
    mul_le_mul_of_nonneg_right (shiftX_le clickX) (le_of_lt hx)
  have e1 : (zoomStep v clickX clickY).xLeftBound =
      v.xLeftBound + shiftX α clickX * v.pixelLengthX := rfl
  have e2 : (zoomStep v clickX clickY).pixelLengthX = v.pixelLengthX / 2 := rfl
  have w : (windowSizeX : α) = 1800 := by norm_num [windowSizeX]
  rw [e1, e2, w]
  constructor <;> linarith

/-- One zoom step on the Y axis: the bottom bound does not decrease and the extent of
`windowSizeY` pixel cells does not grow. -/
theorem zoomStep_cornerY (v : Viewport α) (clickX clickY : Int) (hy : 0 < v.pixelLengthY) :
    v.yBottomBound ≤ (zoomStep v clickX clickY).yBottomBound ∧
    (zoomStep v clickX clickY).yBottomBound +
        (windowSizeY : α) * (zoomStep v clickX clickY).pixelLengthY ≤
      v.yBottomBound + (windowSizeY : α) * v.pixelLengthY := by
  have s0 : 0 ≤ shiftY α clickY * v.pixelLengthY :=
    mul_nonneg (shiftY_nonneg clickY) (le_of_lt hy)
  have s1 : shiftY α clickY * v.pixelLengthY ≤ 600 * v.pixelLengthY :=
    mul_le_mul_of_nonneg_right (shiftY_le clickY) (le_of_lt hy)
  have e1 : (zoomStep v clickX clickY).yBottomBound =
      v.yBottomBound + shiftY α clickY * v.pixelLengthY := rfl
  have e2 : (zoomStep v clickX clickY).pixelLengthY = v.pixelLengthY / 2 := rfl
  have w : (windowSizeY : α) = 1200 := by norm_num [windowSizeY]
  rw [e1, e2, w]
  constructor <;> linarith

/-- Along every zoom history the lower-left corner stays at or above the initial one and
the pixel-cell extent stays within the initial one. -/
theorem afterClicks_corner (clicks : List (Int × Int)) :
    -2 ≤ (afterClicks clicks : Viewport α).xLeftBound ∧
    (afterClicks clicks : Viewport α).xLeftBound +
        (windowSizeX : α) * (afterClicks clicks : Viewport α).pixelLengthX ≤
      -2 + 1800 * (3 / 1799) ∧
    -1 ≤ (afterClicks clicks : Viewport α).yBottomBound ∧
    (afterClicks clicks : Viewport α).yBottomBound +
        (windowSizeY : α) * (afterClicks clicks : Viewport α).pixelLengthY ≤
      -1 + 1200 * (2 / 1199) := by
  induction clicks using List.reverseRecOn with
  | nil =>
    rw [afterClicks_nil, initial_pixelLengthX, initial_pixelLengthY]
    have ex : (initialViewport : Viewport α).xLeftBound = -2 := rfl
    have ey : (initialViewport : Viewport α).yBottomBound = -1 := rfl
    rw [ex, ey]
    norm_num [windowSizeX, windowSizeY]
  | append_singleton clicks click ih =>
    rw [afterClicks_snoc]
    have hx := zoomStep_cornerX (afterClicks clicks : Viewport α) click.1 click.2
      (afterClicks_pixelLength_pos clicks).1
    have hy := zoomStep_cornerY (afterClicks clicks : Viewport α) click.1 click.2
      (afterClicks_pixelLength_pos clicks).2
    exact ⟨le_trans ih.1 hx.1, le_trans hx.2 ih.2.1, le_trans ih.2.2.1 hy.1,
      le_trans hy.2 ih.2.2.2⟩

/-- The variables `xRightBound` and `yTopBound` are never assigned after their
initialisation. -/
theorem afterClicks_stored (clicks : List (Int × Int)) :
    (afterClicks clicks : Viewport α).xRightBound = 1 ∧
    (afterClicks clicks : Viewport α).yTopBound = 1 := by
  induction clicks using List.reverseRecOn with
  | nil => exact ⟨rfl, rfl⟩
  | append_singleton clicks click ih =>
    rw [afterClicks_snoc]
    exact ih

/-- Claim C15, amended: with the arithmetic read exactly, for every viewport state with
positive pixel lengths and every click, the zoom step never moves the lower-left corner
backwards and never grows the pixel-cell extent; hence after any sequence of zooms from
the initial state `xLeftBound` stays in `[-2, -2 + 1800 * (3/1799))` and `yBottomBound`
in `[-1, -1 + 1200 * (2/1199))`. -/
theorem zoomStep_corner_extent :
    (∀ (v : Viewport α) (clickX clickY : Int), 0 < v.pixelLengthX → 0 < v.pixelLengthY →
      v.xLeftBound ≤ (zoomStep v clickX clickY).xLeftBound ∧
      v.yBottomBound ≤ (zoomStep v clickX clickY).yBottomBound ∧
      (zoomStep v clickX clickY).xLeftBound +
          (windowSizeX : α) * (zoomStep v clickX clickY).pixelLengthX ≤
        v.xLeftBound + (windowSizeX : α) * v.pixelLengthX ∧
      (zoomStep v clickX clickY).yBottomBound +
          (windowSizeY : α) * (zoomStep v clickX clickY).pixelLengthY ≤
        v.yBottomBound + (windowSizeY : α) * v.pixelLengthY) ∧
    (∀ clicks : List (Int × Int),
      -2 ≤ (afterClicks clicks : Viewport α).xLeftBound ∧
      (afterClicks clicks : Viewport α).xLeftBound < -2 + 1800 * (3 / 1799) ∧
      -1 ≤ (afterClicks clicks : Viewport α).yBottomBound ∧
      (afterClicks clicks : Viewport α).yBottomBound < -1 + 1200 * (2 / 1199)) := by
  refine ⟨fun v clickX clickY hx hy => ?_, fun clicks => ?_⟩
  · exact ⟨(zoomStep_cornerX v clickX clickY hx).1, (zoomStep_cornerY v clickX clickY hy).1,
      (zoomStep_cornerX v clickX clickY hx).2, (zoomStep_cornerY v clickX clickY hy).2⟩
  · have h := afterClicks_corner (α := α) clicks
    have px := (afterClicks_pixelLength_pos (α := α) clicks).1
    have py := (afterClicks_pixelLength_pos (α := α) clicks).2
    have wx : (0 : α) < (windowSizeX : α) := by norm_num [windowSizeX]
    have wy : (0 : α) < (windowSizeY : α) := by norm_num [windowSizeY]
    have mx := mul_pos wx px
    have my := mul_pos wy py
    exact ⟨h.1, by linarith [h.2.1], h.2.2.1, by linarith [h.2.2.2]⟩

/-- Claim C15, instance: the zoom step from the initial state at the click
`(1799, 1199)`, whose pixel lengths are positive. -/
theorem zoomStep_corner_extent_witness :
    (0 : ℚ) < (initialViewport : Viewport ℚ).pixelLengthX ∧
    (0 : ℚ) < (initialViewport : Viewport ℚ).pixelLengthY ∧
    (initialViewport : Viewport ℚ).xLeftBound ≤
      (zoomStep (initialViewport : Viewport ℚ) 1799 1199).xLeftBound ∧
    (zoomStep (initialViewport : Viewport ℚ) 1799 1199).xLeftBound +
        (windowSizeX : ℚ) * (zoomStep (initialViewport : Viewport ℚ) 1799 1199).pixelLengthX ≤
      (initialViewport : Viewport ℚ).xLeftBound +
        (windowSizeX : ℚ) * (initialViewport : Viewport ℚ).pixelLengthX := by
  have hx : (0 : ℚ) < (initialViewport : Viewport ℚ).pixelLengthX := by
    norm_num [initialViewport, windowSizeX]
  have hy : (0 : ℚ) < (initialViewport : Viewport ℚ).pixelLengthY := by
    norm_num [initialViewport, windowSizeY]
  have h := (zoomStep_corner_extent (α := ℚ)).1 initialViewport 1799 1199 hx hy
  exact ⟨hx, hy, h.1, h.2.2.1⟩

/-- Claim C12: in every state reachable from the initial state (`xLeftBound = -2`,
`xRightBound = 1`, `yBottomBound = -1`, `yTopBound = 1`) by any finite sequence of zoom
clicks at arbitrary positions, the viewport bounds satisfy `right > left` and
`top > bottom` (arithmetic read exactly).  The right and top bounds of a state are the
ones its corner and pixel lengths imply, `impliedRightBound` and `impliedTopBound`: they
satisfy the defining relation of the pixel lengths in every reachable state, and in the
initial state they are the stored `xRightBound` and `yTopBound`. -/
theorem afterClicks_bounds (clicks : List (Int × Int)) :
    impliedRightBound (afterClicks clicks : Viewport α) >
      (afterClicks clicks : Viewport α).xLeftBound ∧
    impliedTopBound (afterClicks clicks : Viewport α) >
      (afterClicks clicks : Viewport α).yBottomBound ∧
    (afterClicks clicks : Viewport α).pixelLengthX =
      (impliedRightBound (afterClicks clicks : Viewport α) -
        (afterClicks clicks : Viewport α).xLeftBound) / ((windowSizeX - 1 : Nat) : α) ∧
    (afterClicks clicks : Viewport α).pixelLengthY =
      (impliedTopBound (afterClicks clicks : Viewport α) -
        (afterClicks clicks : Viewport α).yBottomBound) / ((windowSizeY - 1 : Nat) : α) ∧
    (initialViewport : Viewport α).xLeftBound = -2 ∧
    (initialViewport : Viewport α).xRightBound = 1 ∧
    (initialViewport : Viewport α).yBottomBound = -1 ∧
    (initialViewport : Viewport α).yTopBound = 1 ∧
    impliedRightBound (initialViewport : Viewport α) =
      (initialViewport : Viewport α).xRightBound ∧
    impliedTopBound (initialViewport : Viewport α) =
      (initialViewport : Viewport α).yTopBound := by
  have hpos := afterClicks_pixelLength_pos (α := α) clicks
  have cx : ((windowSizeX - 1 : Nat) : α) = 1799 := by norm_num [windowSizeX]
  have cy : ((windowSizeY - 1 : Nat) : α) = 1199 := by norm_num [windowSizeY]
  refine ⟨?_, ?_, ?_, ?_, rfl, rfl, rfl, rfl, ?_, ?_⟩
  · simp only [impliedRightBound, cx]; linarith [hpos.1]
  · simp only [impliedTopBound, cy]; linarith [hpos.2]
  · simp only [impliedRightBound, cx]; field_simp
  · simp only [impliedTopBound, cy]; field_simp
  · simp only [impliedRightBound, cx, initial_pixelLengthX]
    have e1 : (initialViewport : Viewport α).xLeftBound = -2 := rfl
    have e2 : (initialViewport : Viewport α).xRightBound = 1 := rfl
    rw [e1, e2]; norm_num
  · simp only [impliedTopBound, cy, initial_pixelLengthY]
    have e1 : (initialViewport : Viewport α).yBottomBound = -1 := rfl
    have e2 : (initialViewport : Viewport α).yTopBound = 1 := rfl
    rw [e1, e2]; norm_num

/-- The locals `xRightBound` and `yTopBound` of `main` are read only to compute the
initial pixel lengths; they keep the value `1` while the corner moves, so after 11
clicks at pixel `(1799, 1199)` the corner coordinate `xLeftBound = 460637/460544` lies
beyond the initial right bound. -/
theorem afterClicks_stored_stale :
    (afterClicks (List.replicate 11 (1799, 1199)) : Viewport ℚ).xLeftBound = 460637 / 460544 ∧
    (afterClicks (List.replicate 11 (1799, 1199)) : Viewport ℚ).xRightBound = 1 := by
  have hx : shiftX ℚ 1799 = 900 := by rw [shiftX_eq]; norm_num
  have e : (afterClicks (List.replicate 11 (1799, 1199)) : Viewport ℚ).xLeftBound =
      460637 / 460544 := by
    simp only [afterClicks, List.replicate, List.foldl, zoomStep, shiftBounds, hx,
      zoomValue, initialViewport, windowSizeX]
    norm_num
  exact ⟨e, (afterClicks_stored _).1⟩

end ZoomHistory

/-! ## Theorems: the pixel enumeration ends, stays inside the image and is row-major -/

section PixelOrder

theorem iterate_next_begin (k : Nat) :
    WindowIterator.next^[k] WindowIterator.begin = { state := pixelAt k } := by
  induction k with
  | zero => rfl
  | succ k ih => rw [Function.iterate_succ_apply', ih, next_pixelAt]

theorem pixelAt_injective : Function.Injective pixelAt := by
  intro a b h
  simp only [pixelAt, windowSizeX, Prod.mk.injEq] at h
  omega

theorem pixelAt_last : pixelAt (windowSizeX * windowSizeY - 1) =
    (windowSizeX - 1, windowSizeY - 1) := by
  decide

/-- Claim C16: the pixel enumeration used by `draw` terminates and is safe: starting
from `begin() = (0, 0)`, `windowSizeX * windowSizeY - 1` applications of `operator++`
reach `end()` and no fewer do; the loop ends, and the states it dereferences are, in
order, the pixels with row-major index `0, 1, 2, ...` (first runs `0..windowSizeX-1`,
then second increases by `1`), each with `first < windowSizeX` and
`second < windowSizeY`, and no pixel is visited twice. -/
theorem drawPixels_terminates_safe :
    WindowIterator.begin.state = (0, 0) ∧
    WindowIterator.next^[windowSizeX * windowSizeY - 1] WindowIterator.begin =
      WindowIterator.end_ ∧
    (∀ k, k < windowSizeX * windowSizeY - 1 →
      WindowIterator.next^[k] WindowIterator.begin ≠ WindowIterator.end_) ∧
    ∃ pixels : List pixel, drawPixels = some pixels ∧
      pixels = (List.range (windowSizeX * windowSizeY - 1)).map
        (fun k => (k % windowSizeX, k / windowSizeX)) ∧
      (∀ k, k < pixels.length →
        pixels[k]? = some ((WindowIterator.next^[k] WindowIterator.begin).state)) ∧
      (∀ p ∈ pixels, p.1 < windowSizeX ∧ p.2 < windowSizeY) ∧
      pixels.Nodup := by
  refine ⟨rfl, ?_, ?_, _, drawPixels_eq, ?_, ?_, ?_, ?_⟩
  · rw [iterate_next_begin, pixelAt_last]; rfl
  · intro k hk h
    rw [iterate_next_begin] at h
    have h2 : pixelAt k = pixelAt (windowSizeX * windowSizeY - 1) := by
      rw [pixelAt_last]
      exact congrArg WindowIterator.state h
    have := pixelAt_injective h2
    omega
  · rw [List.range_eq_range']; rfl
  · intro k hk
    simp only [List.length_map, List.length_range'] at hk
    rw [iterate_next_begin, List.getElem?_map, List.getElem?_range' _ _ hk]
    simp
  · intro p hp
    simp only [List.mem_map, List.mem_range'_1] at hp
    obtain ⟨k, hk, rfl⟩ := hp
    simp only [pixelAt, windowSizeX, windowSizeY] at hk ⊢
    omega
  · exact (List.nodup_range' 0 _).map pixelAt_injective

end PixelOrder

/-! ## Theorems: the evaluator and the zoom step in the arithmetic of `double` -/

section DoubleArithmetic

/-- Claim C1, amended: for every input and every interpretation of the arithmetic (the
IEEE arithmetic of `double` included), with the orbit `z_0 = (real0, imaginary0)`,
`z_{k+1} = z_k^2 + z_0` and the squared magnitude computed by the operations of the
code (lines 20, 22 and 23, every operation rounded as the program rounds it),
`mandelbrotCheck` returns `k < maxIterationCount` exactly when `k` is the least index
whose computed squared magnitude exceeds `4`, and returns `maxIterationCount = 100`
exactly when no index below `maxIterationCount` has one; with the arithmetic read
exactly, the same holds for the orbit and the squared magnitude of complex arithmetic. -/
theorem mandelbrotCheck_least_escape :
    (∀ (α : Type) [Add α] [Sub α] [Mul α] [OfNat α 2] [OfNat α 4] [LT α]
        [DecidableRel (fun a b : α => a < b)] (real0 imaginary0 : α),
      (∀ k, k < maxIterationCount →
        (mandelbrotCheck real0 imaginary0 = k ↔
          (escaped (loopState real0 imaginary0 k) ∧
            ∀ j, j < k → ¬ escaped (loopState real0 imaginary0 j)))) ∧
      (mandelbrotCheck real0 imaginary0 = maxIterationCount ↔
        ∀ k, k < maxIterationCount → ¬ escaped (loopState real0 imaginary0 k))) ∧
    (∀ (β : Type) [LinearOrderedField β] (real0 imaginary0 : β),
      (∀ k, k < maxIterationCount →
        (mandelbrotCheck real0 imaginary0 = k ↔
          (magnitudeSq (specOrbit (real0, imaginary0) k) > 4 ∧
            ∀ j, j < k → ¬ magnitudeSq (specOrbit (real0, imaginary0) j) > 4))) ∧
      (mandelbrotCheck real0 imaginary0 = maxIterationCount ↔
        ∀ k, k < maxIterationCount → ¬ magnitudeSq (specOrbit (real0, imaginary0) k) > 4)) ∧
    maxIterationCount = 100 := by
  refine ⟨fun α _ _ _ _ _ _ _ real0 imaginary0 => ?_, fun β _ real0 imaginary0 => ?_, rfl⟩
  · exact ⟨(mandelbrotCheck_eq_iff real0 imaginary0).2, (mandelbrotCheck_eq_iff real0 imaginary0).1⟩
  · exact ⟨(mandelbrotCheck_exact_orbit real0 imaginary0).1,
      (mandelbrotCheck_exact_orbit real0 imaginary0).2.1⟩

/-- Claim C1 as stated fails on the program: the `double` input `(-2, 2^-30)` has
`|z_0|^2 = 4 + 2^-60 > 4`, so the least escaping index of the orbit is `0`, but in
`double` arithmetic `4 + 2^-60` rounds to `4` and `mandelbrotCheck` returns `3`. -/
theorem mandelbrotCheck_least_escape_double :
    Double.value (Double.ofRat (-2)) = some (-2) ∧
    Double.value (Double.ofRat (1 / 2 ^ 30)) = some (1 / 2 ^ 30) ∧
    magnitudeSq (specOrbit ((-2 : ℚ), (1 / 2 ^ 30 : ℚ)) 0) > 4 ∧
    mandelbrotCheck (Double.ofRat (-2)) (Double.ofRat (1 / 2 ^ 30)) = 3 := by
  decide!

/-- Claim C2, amended: for every input and every interpretation of the arithmetic (the
IEEE arithmetic of `double` included), `mandelbrotCheck` returns `0` if and only if the
squared magnitude computed by line 20, `real * real + imaginary * imaginary` with every
operation rounded as the program rounds it, is `> 4`; with the arithmetic read exactly
this is `real^2 + imaginary^2 > 4`.  The test is strict: a point with squared magnitude
exactly `4`, such as `(2, 0)` or `(-2, 0)`, does not return `0`, in `double` arithmetic
as well. -/
theorem mandelbrotCheck_eq_zero_iff :
    (∀ (α : Type) [Add α] [Sub α] [Mul α] [OfNat α 2] [OfNat α 4] [LT α]
        [DecidableRel (fun a b : α => a < b)] (real imaginary : α),
      mandelbrotCheck real imaginary = 0 ↔ real * real + imaginary * imaginary > 4) ∧
    (∀ (β : Type) [LinearOrderedField β] (real imaginary : β),
      (mandelbrotCheck real imaginary = 0 ↔ real ^ 2 + imaginary ^ 2 > 4) ∧
      (real ^ 2 + imaginary ^ 2 = 4 → mandelbrotCheck real imaginary ≠ 0)) ∧
    mandelbrotCheck (2 : ℚ) 0 ≠ 0 ∧ mandelbrotCheck (-2 : ℚ) 0 ≠ 0 ∧
    mandelbrotCheck (2 : Double) 0 ≠ 0 ∧ mandelbrotCheck (-2 : Double) 0 ≠ 0 := by
  refine ⟨fun α _ _ _ _ _ _ _ real imaginary => ?_, fun β _ real imaginary => ?_,
    (mandelbrotCheck_eq_zero_iff_exact (α := ℚ)).2.2.1,
    (mandelbrotCheck_eq_zero_iff_exact (α := ℚ)).2.2.2, ?_, ?_⟩
  · exact mandelbrotCheck_eq_zero_iff_escaped real imaginary
  · exact ⟨(mandelbrotCheck_eq_zero_iff_exact (α := β)).1 real imaginary,
      (mandelbrotCheck_eq_zero_iff_exact (α := β)).2.1 real imaginary⟩
  · rw [Ne, mandelbrotCheck_eq_zero_iff_escaped]; decide!
  · rw [Ne, mandelbrotCheck_eq_zero_iff_escaped]; decide!

/-- Claim C2 as stated fails on the program: the `double` input `(2, 2^-30)` has
`real^2 + imaginary^2 = 4 + 2^-60 > 4`, but in `double` arithmetic the sum rounds to
`4`, the test of line 20 fails and `mandelbrotCheck` returns `1`, not `0`. -/
theorem mandelbrotCheck_eq_zero_iff_double :
    Double.value (Double.ofRat 2) = some 2 ∧
    Double.value (Double.ofRat (1 / 2 ^ 30)) = some (1 / 2 ^ 30) ∧
    (2 : ℚ) ^ 2 + (1 / 2 ^ 30 : ℚ) ^ 2 > 4 ∧
    Double.value (Double.ofRat 2 * Double.ofRat 2 +
      Double.ofRat (1 / 2 ^ 30) * Double.ofRat (1 / 2 ^ 30)) = some 4 ∧
    mandelbrotCheck (Double.ofRat 2) (Double.ofRat (1 / 2 ^ 30)) = 1 := by
  decide!

/-- Claim C8 as stated fails on the program: from the initial state in `double`
arithmetic the click `(470, 310)` is not clamped (the shift is `(20, 10)`), yet the
plane point of pixel `(900, 600)` after the zoom differs from the plane point of pixel
`(470, 310)` before it, by `2^-52` in `x` and `2^-53` in `y`. -/
theorem zoomStep_centres_click_double :
    Double.value ((windowSizeX : Double) / (2 * zoomValue Double)) = some 450 ∧
    Double.value ((windowSizeX : Double) - (windowSizeX : Double) / (2 * zoomValue Double)) =
      some 1350 ∧
    Double.value (shiftX Double 470) = some 20 ∧
    Double.value (shiftY Double 310) = some 10 ∧
    Double.value (planeX (initialViewport : Viewport Double) 470) =
      some (-5477418557357780 / 2 ^ 52) ∧
    Double.value (planeX (zoomStep (initialViewport : Viewport Double) 470 310)
      (windowSizeX / 2)) = some (-5477418557357779 / 2 ^ 52) ∧
    Double.value (planeY (initialViewport : Viewport Double) 310) =
      some (-4349598305667252 / 2 ^ 53) ∧
    Double.value (planeY (zoomStep (initialViewport : Viewport Double) 470 310)
      (windowSizeY / 2)) = some (-4349598305667251 / 2 ^ 53) ∧
    planeX (zoomStep (initialViewport : Viewport Double) 470 310) (windowSizeX / 2) ≠
      planeX (initialViewport : Viewport Double) 470 := by
  decide!

/-- In `double` arithmetic the end-to-end case of the centring still holds exactly: from
the initial state the click `(900, 600)` leaves the plane point of pixel `(900, 600)`
unchanged. -/
theorem zoomStep_centre_double_900_600 :
    planeX (zoomStep (initialViewport : Viewport Double) 900 600) 900 =
      planeX (initialViewport : Viewport Double) 900 ∧
    planeY (zoomStep (initialViewport : Viewport Double) 900 600) 600 =
      planeY (initialViewport : Viewport Double) 600 := by
  decide!

/-- Claim C15 as stated fails on the program: in `double` arithmetic, from the initial
state (positive pixel lengths) the click `(1799, 1199)` gives a state whose pixel-cell
extent `xLeftBound + windowSizeX * pixelLengthX`, evaluated exactly on the stored
`double` values, exceeds the previous one by `69 / 2^60`; and in the state reached by
the clicks `(1200, 800)`, `(1799, 1199)`, `(500, 400)` a further click at `(1799, 1199)`
makes the extent grow also when it is evaluated and compared in `double` arithmetic. -/
theorem zoomStep_corner_extent_double :
    (0 : Double) < (initialViewport : Viewport Double).pixelLengthX ∧
    (0 : Double) < (initialViewport : Viewport Double).pixelLengthY ∧
    Double.value (initialViewport : Viewport Double).xLeftBound = some (-2) ∧
    Double.value (initialViewport : Viewport Double).pixelLengthX =
      some (7690415817277467 / 2 ^ 62) ∧
    Double.value (zoomStep (initialViewport : Viewport Double) 1799 1199).xLeftBound =
      some (-281005590979621 / 2 ^ 49) ∧
    Double.value (zoomStep (initialViewport : Viewport Double) 1799 1199).pixelLengthX =
      some (7690415817277467 / 2 ^ 63) ∧
    (-281005590979621 / 2 ^ 49 + 1800 * (7690415817277467 / 2 ^ 63) : ℚ) -
      (-2 + 1800 * (7690415817277467 / 2 ^ 62)) = 69 / 2 ^ 60 ∧
    ¬ ((-281005590979621 / 2 ^ 49 + 1800 * (7690415817277467 / 2 ^ 63) : ℚ) ≤
      -2 + 1800 * (7690415817277467 / 2 ^ 62)) ∧
    (0 : Double) <
      (afterClicks [(1200, 800), (1799, 1199), (500, 400)] : Viewport Double).pixelLengthX ∧
    (afterClicks [(1200, 800), (1799, 1199), (500, 400)] : Viewport Double).xLeftBound +
        (windowSizeX : Double) *
          (afterClicks [(1200, 800), (1799, 1199), (500, 400)] : Viewport Double).pixelLengthX <
      (afterClicks [(1200, 800), (1799, 1199), (500, 400), (1799, 1199)] :
          Viewport Double).xLeftBound +
        (windowSizeX : Double) *
          (afterClicks [(1200, 800), (1799, 1199), (500, 400), (1799, 1199)] :
            Viewport Double).pixelLengthX := by
  decide!

end DoubleArithmetic

end Mandelbrot
